import Mathlib

/-!
Verification development for the contacts application
(`contacts_app/models.py`, `contacts_app/views.py`).

The code is shallowly embedded: the relational store becomes an explicit
`DB` record (lists of rows plus id counters), Django querysets become list
filters followed by the model's declared default ordering, request bodies
become an optional `Json` value (`none` models a JSON parse failure), and
each view method becomes a function from a `DB` and a request to an HTTP
response paired with the resulting `DB`.

Python string operations used by the Excel cell codec (`strip`, `split`,
`replace`, `rfind`, substring membership) are embedded at the
character-list level so that every definition is executable.
-/

namespace ContactsApp

/-! ### Python string primitives, at the character-list level -/

/-- Characters removed by Python `str.strip()` (ASCII whitespace). -/
def pySpace (c : Char) : Bool :=
  c = ' ' || c = '\t' || c = '\n' || c = '\r' || c = Char.ofNat 11 || c = Char.ofNat 12

/-- Python `str.strip()`: drop leading and trailing whitespace. -/
def pyStrip (s : List Char) : List Char :=
  ((s.dropWhile pySpace).reverse.dropWhile pySpace).reverse

/-- Python `str.split(';')`. `"".split(';') = [""]`. -/
def splitSemi : List Char → List (List Char)
  | [] => [[]]
  | c :: rest =>
    match splitSemi rest with
    | [] => [[]]
    | g :: gs => if c = ';' then [] :: g :: gs else (c :: g) :: gs

/-- Python substring membership `p in s`. -/
def containsSub (p : List Char) : List Char → Bool
  | [] => p.isEmpty
  | c :: t => p.isPrefixOf (c :: t) || containsSub p t

/-- Fuelled worker for `replaceAll`; the fuel (any bound on the remaining
length) only makes the recursion structural, it never changes the result. -/
def replaceAllFuel (p r : List Char) : Nat → List Char → List Char
  | 0, s => s
  | _ + 1, [] => []
  | fuel + 1, c :: t =>
    if p ≠ [] ∧ p.isPrefixOf (c :: t) then
      r ++ replaceAllFuel p r fuel (t.drop (p.length - 1))
    else
      c :: replaceAllFuel p r fuel t

/-- Python `str.replace(p, r)`: replace every non-overlapping occurrence,
scanning left to right. -/
def replaceAll (p r s : List Char) : List Char :=
  replaceAllFuel p r s.length s

theorem replaceAllFuel_congr (p r : List Char) :
    ∀ (fuel1 fuel2 : Nat) (s : List Char), s.length ≤ fuel1 → s.length ≤ fuel2 →
      replaceAllFuel p r fuel1 s = replaceAllFuel p r fuel2 s := by
  intro fuel1
  induction fuel1 with
  | zero =>
    intro fuel2 s h1 _
    have : s = [] := List.length_eq_zero.mp (Nat.le_zero.mp h1)
    cases this
    cases fuel2 <;> rfl
  | succ f1 ih =>
    intro fuel2 s h1 h2
    cases s with
    | nil => cases fuel2 <;> rfl
    | cons c t =>
      cases fuel2 with
      | zero => exact absurd h2 (by simp)
      | succ f2 =>
        show replaceAllFuel p r (f1 + 1) (c :: t) = replaceAllFuel p r (f2 + 1) (c :: t)
        unfold replaceAllFuel
        split
        · rename_i hcond
          have hlen : (t.drop (p.length - 1)).length ≤ f1 := by
            simp only [List.length_drop]
            simp only [List.length_cons] at h1
            omega
          have hlen2 : (t.drop (p.length - 1)).length ≤ f2 := by
            simp only [List.length_drop]
            simp only [List.length_cons] at h2
            omega
          rw [ih f2 _ hlen hlen2]
        · have hlen : t.length ≤ f1 := by
            simp only [List.length_cons] at h1; omega
          have hlen2 : t.length ≤ f2 := by
            simp only [List.length_cons] at h2; omega
          rw [ih f2 t hlen hlen2]

theorem replaceAll_nil (p r : List Char) : replaceAll p r [] = [] := rfl

theorem replaceAll_cons_pos (p r : List Char) (c : Char) (t : List Char)
    (hp : p ≠ []) (hpre : p.isPrefixOf (c :: t) = true) :
    replaceAll p r (c :: t) = r ++ replaceAll p r (t.drop (p.length - 1)) := by
  show (if p ≠ [] ∧ p.isPrefixOf (c :: t) = true then
      r ++ replaceAllFuel p r t.length (t.drop (p.length - 1))
    else c :: replaceAllFuel p r t.length t) = _
  rw [if_pos ⟨hp, hpre⟩]
  rw [replaceAllFuel_congr p r t.length (t.drop (p.length - 1)).length
    (t.drop (p.length - 1)) (by simp only [List.length_drop]; omega) (Nat.le_refl _)]
  rfl

theorem replaceAll_cons_neg (p r : List Char) (c : Char) (t : List Char)
    (h : ¬(p ≠ [] ∧ p.isPrefixOf (c :: t) = true)) :
    replaceAll p r (c :: t) = c :: replaceAll p r t := by
  show (if p ≠ [] ∧ p.isPrefixOf (c :: t) = true then
      r ++ replaceAllFuel p r t.length (t.drop (p.length - 1))
    else c :: replaceAllFuel p r t.length t) = _
  rw [if_neg h]
  rfl

/-- Python `str.rfind(c)`: index of the last occurrence, if any. -/
def rfindIdx (c : Char) : List Char → Option Nat
  | [] => none
  | x :: t =>
    match rfindIdx c t with
    | some i => some (i + 1)
    | none => if x = c then some 0 else none

/-- ASCII lower-casing, Python `str.lower()` on the strings this app uses. -/
def pyLower (s : List Char) : List Char := s.map Char.toLower

/-! ### Data model (`contacts_app/models.py`) -/

/-- A row of the `Contact` table. -/
structure Contact where
  id : Nat
  name : String
  bookmarked : Bool
deriving Repr, DecidableEq

/-- A row of the `ContactMethod` table. -/
structure ContactMethod where
  id : Nat
  contactId : Nat
  method_type : String
  label : String
  value : String
  is_primary : Bool
deriving Repr, DecidableEq

/-- The relational store: table contents plus generated-id counters. -/
structure DB where
  contacts : List Contact
  methods : List ContactMethod
  nextContactId : Nat
  nextMethodId : Nat
deriving Repr, DecidableEq

/-- Sort rank used by the `-is_primary` component of the model's default
ordering: primaries first. -/
def primRank (m : ContactMethod) : Nat := if m.is_primary then 0 else 1

/-- The `ContactMethod.Meta.ordering = ['method_type', '-is_primary', 'label']`
comparison. -/
def keyLE (a b : ContactMethod) : Bool :=
  if a.method_type = b.method_type then
    if primRank a = primRank b then decide (a.label ≤ b.label)
    else decide (primRank a < primRank b)
  else decide (a.method_type < b.method_type)

/-- Stable insertion for `sortMethods`: an element is placed before every
strictly greater element and before equal keys that came later. -/
def sinsert (m : ContactMethod) : List ContactMethod → List ContactMethod
  | [] => [m]
  | x :: xs => if keyLE m x then m :: x :: xs else x :: sinsert m xs

/-- The model's declared default ordering, applied by every queryset over
`ContactMethod` (a stable sort of the stored rows). -/
def sortMethods (l : List ContactMethod) : List ContactMethod := l.foldr sinsert []

/-- The queryset `contact.contact_methods.all()`: the contact's methods in default order. -/
def methodsOf (db : DB) (cid : Nat) : List ContactMethod :=
  sortMethods (db.methods.filter (fun m => m.contactId == cid))

/-- Both `Contact.primary_email` and `Contact.primary_phone`, generalized over the
method type literal: the first flagged-primary method of the type, else the
first method of the type (both "first" via the default ordering), else null. -/
def primaryOfType (db : DB) (cid : Nat) (t : String) : Option String :=
  match (sortMethods (db.methods.filter
      (fun m => m.contactId == cid && m.method_type == t && m.is_primary))).head? with
  | some p => some p.value
  | none =>
    ((sortMethods (db.methods.filter
        (fun m => m.contactId == cid && m.method_type == t))).head?).map (·.value)

/-- The property `Contact.primary_email`. -/
def primary_email (db : DB) (cid : Nat) : Option String := primaryOfType db cid "email"

/-- The property `Contact.primary_phone`. -/
def primary_phone (db : DB) (cid : Nat) : Option String := primaryOfType db cid "phone"

/-- The claim's notion of "the first method of that type by stored order":
head of the type's methods under the model's declared default ordering. -/
def firstByStoredOrder (db : DB) (cid : Nat) (t : String) : Option ContactMethod :=
  (sortMethods (db.methods.filter
    (fun m => m.contactId == cid && m.method_type == t))).head?

/-- The per-row effect of the demotion update in `ContactMethod.save`:
a stored row loses its `is_primary` flag when it shares the saved method's
contact and type, is itself primary, and is not the saved row
(`.exclude(pk=self.pk)`). -/
def demoteOne (m x : ContactMethod) : ContactMethod :=
  if x.contactId == m.contactId && x.method_type == m.method_type
      && x.is_primary && x.id != m.id
  then { x with is_primary := false } else x

/-- The demotion step of `ContactMethod.save`: if the incoming method is
primary, clear `is_primary` on every other stored method of the same contact
and same type. -/
def demote (db : DB) (m : ContactMethod) : DB :=
  if m.is_primary then { db with methods := db.methods.map (demoteOne m) } else db

/-- The UPDATE write of a saved row: overwrite the stored row carrying the
saved method's primary key. -/
def replaceById (m x : ContactMethod) : ContactMethod :=
  if x.id == m.id then m else x

/-- The custom `ContactMethod.save`: demote competing primaries, then UPDATE the row with
this primary key if it exists, else INSERT. -/
def methodSave (db : DB) (m : ContactMethod) : DB :=
  let db1 := demote db m
  if db1.methods.any (fun x => x.id == m.id) then
    { db1 with methods := db1.methods.map (replaceById m) }
  else
    { db1 with methods := db1.methods ++ [m] }

/-- The stored methods of contact `cid` and type `t` flagged primary — the
set the primary-uniqueness invariant constrains. -/
def primariesFor (db : DB) (cid : Nat) (t : String) : List ContactMethod :=
  db.methods.filter (fun x => x.contactId == cid && x.method_type == t && x.is_primary)

/-- The call `ContactMethod.objects.create(...)`: a fresh row saved through
`ContactMethod.save`. -/
def createMethod (db : DB) (cid : Nat) (mt lab v : String) (prim : Bool) : DB :=
  let m : ContactMethod :=
    { id := db.nextMethodId, contactId := cid, method_type := mt,
      label := lab, value := v, is_primary := prim }
  let db1 := methodSave db m
  { db1 with nextMethodId := db.nextMethodId + 1 }

/-- A well-typed contact-method payload (the shapes every claim exercises). -/
structure MethodIn where
  method_type : String
  label : String
  value : String
  is_primary : Bool
deriving Repr, DecidableEq

/-- Sequentially create a batch of methods for one contact, as the creation
loops in `ContactListView.post`, `ContactDetailView.put` and the importer do. -/
def createMethods (db : DB) (cid : Nat) (ins : List MethodIn) : DB :=
  ins.foldl (fun d i => createMethod d cid i.method_type i.label i.value i.is_primary) db

/-- Plain `contact.save()` on the `Contact` model (no custom logic):
UPDATE the row with this primary key. -/
def saveContact (db : DB) (c : Contact) : DB :=
  { db with contacts := db.contacts.map (fun x => if x.id == c.id then c else x) }

/-- The lookup `Contact.objects.get(id=...)`, returning `none` for `DoesNotExist`. -/
def findContact (db : DB) (cid : Nat) : Option Contact :=
  db.contacts.find? (fun c => c.id == cid)

/-! ### The Excel cell codec (`ContactExportView.get` / `ContactImportView.post`) -/

/-- The literal `[Primary]` marker. -/
def primaryMarker : List Char := "[Primary]".data

/-- Export encoding of one method into its cell segment:
`value`, then `" (label)"` if the label is non-empty, then `" [Primary]"`
if the method is primary. -/
def encodeSegChars (v l : List Char) (prim : Bool) : List Char :=
  v ++ (if l = [] then [] else ' ' :: '(' :: (l ++ [')']))
    ++ (if prim then ' ' :: primaryMarker else [])

/-- The join `'; '.join`, as the export view joins the segments of one cell. -/
def interSemi : List (List Char) → List Char
  | [] => []
  | [s] => s
  | s :: s2 :: rest => s ++ ';' :: ' ' :: interSemi (s2 :: rest)

/-- The export cell for a list of methods (already in queryset order). -/
def encodeCell (ms : List ContactMethod) : String :=
  (interSemi (ms.map (fun m => encodeSegChars m.value.data m.label.data m.is_primary))).asString

/-- The export cell the spreadsheet gets for one contact and one method type:
the contact's methods in default order, filtered to the type, encoded. -/
def exportCellFor (db : DB) (cid : Nat) (mt : String) : String :=
  encodeCell ((methodsOf db cid).filter (fun m => m.method_type == mt))

/-- Import decoding of one trimmed cell segment, mirroring the importer:
if `'['` and `']'` occur and `"[Primary]"` occurs, set primary and strip the
marker; if `'('` and `')'` occur, take the last `'('` and last `')'` and,
when properly ordered, extract the label between them; the remainder
(trimmed) is the value, and an empty remainder produces no method. -/
def decodeSeg (seg : List Char) : Option (List Char × List Char × Bool) :=
  if seg = [] then none
  else
    let prim := seg.contains '[' && seg.contains ']' && containsSub primaryMarker seg
    let v1 := if prim then pyStrip (replaceAll primaryMarker [] seg) else seg
    let lv : List Char × List Char :=
      if v1.contains '(' && v1.contains ')' then
        match rfindIdx '(' v1, rfindIdx ')' v1 with
        | some st, some en =>
          if st < en then
            (pyStrip (v1.take st), pyStrip ((v1.drop (st + 1)).take (en - st - 1)))
          else (v1, [])
        | _, _ => (v1, [])
      else (v1, [])
    if lv.1 = [] then none else some (lv.1, lv.2, prim)

/-- Import decoding of one whole cell: trim it, drop it when blank or the
literal text `nan`, else split on `';'`, trim each piece and decode it.
Returns the `(value, label, is_primary)` triples the importer would create. -/
def decodeCell (cell : String) : List (String × String × Bool) :=
  let v := pyStrip cell.data
  if v = [] || v = "nan".data then []
  else
    ((splitSemi v).map pyStrip).filterMap (fun seg =>
      (decodeSeg seg).map (fun t => (t.1.asString, t.2.1.asString, t.2.2)))

/-! ### JSON request bodies and responses

A request body is `Option Json`: `none` models a body `json.loads` rejects
(`parse_json_body` returning `None`), `some v` a successfully parsed value.
JSON objects are modelled as association lists with first-match lookup;
duplicate keys (where Python's dict keeps the last) are exercised by no claim.
-/

/-- A parsed JSON value. -/
inductive Json where
  | null
  | bool (b : Bool)
  | num (n : Int)
  | str (s : String)
  | arr (xs : List Json)
  | obj (kvs : List (String × Json))
deriving Repr

/-- Python truthiness of a parsed JSON value, as tested by `if not data`. -/
def Json.falsy : Json → Bool
  | .null => true
  | .bool b => !b
  | .num n => n == 0
  | .str s => s == ""
  | .arr xs => xs.isEmpty
  | .obj kvs => kvs.isEmpty

/-- Dictionary lookup on a parsed JSON object. -/
def jlookup (kvs : List (String × Json)) (k : String) : Option Json :=
  match kvs with
  | [] => none
  | (k', v) :: rest => if k' = k then some v else jlookup rest k

/-- An HTTP response: status code and JSON body. -/
structure HttpResp where
  status : Nat
  body : Json
deriving Repr

/-- An error response, `JsonResponse` carrying an `error` field and a status. -/
def errResp (status : Nat) (msg : String) : HttpResp :=
  { status := status, body := .obj [("error", .str msg)] }

/-- Marker response for request shapes outside the modelled fragment
(field payloads that are syntactically present but not of the type the
code stores, e.g. a number where a string is stored; on such inputs the
original's behavior depends on database driver coercion). No claim
exercises these shapes; every branch returning this leaves the store as
annotated at its use site. -/
def unmodelledResp : HttpResp :=
  { status := 599, body := .obj [("error", .str "outside modelled fragment")] }

/-- Serialization of one method, as every handler's response builds it. -/
def methodJson (m : ContactMethod) : Json :=
  .obj [("id", .num m.id), ("method_type", .str m.method_type),
        ("label", .str m.label), ("value", .str m.value),
        ("is_primary", .bool m.is_primary)]

/-- Serialization of one contact with its methods in default order. -/
def contactJson (db : DB) (c : Contact) : Json :=
  .obj [("id", .num c.id), ("name", .str c.name), ("bookmarked", .bool c.bookmarked),
        ("contact_methods", .arr ((methodsOf db c.id).map methodJson))]

/-- One entry of the create-contact validation loop: does this entry carry a
present, truthy `method_type` and `value`? -/
def entryOk (e : Json) : Bool :=
  match e with
  | .obj kvs =>
    (match jlookup kvs "method_type" with
     | some v => !v.falsy
     | none => false)
    && (match jlookup kvs "value" with
        | some v => !v.falsy
        | none => false)
  | _ => false

/-- Result of the create-contact validation loop. -/
inductive VRes where
  | ok
  | fail (msg : String)
  | gap
deriving Repr, DecidableEq

/-- The validation loop of `ContactListView.post`: the first entry lacking a
truthy `method_type` (then `value`) fails with a message carrying the entry's
1-based index. Entries that are not JSON objects are outside the modelled
fragment (Python would run `in` on a non-dict). -/
def validateEntries : List Json → Nat → VRes
  | [], _ => .ok
  | e :: rest, idx =>
    match e with
    | .obj kvs =>
      (match jlookup kvs "method_type" with
       | none => .fail s!"Contact method {idx + 1}: missing method_type"
       | some v =>
         if v.falsy then .fail s!"Contact method {idx + 1}: missing method_type"
         else
           match jlookup kvs "value" with
           | none => .fail s!"Contact method {idx + 1}: missing value"
           | some v2 =>
             if v2.falsy then .fail s!"Contact method {idx + 1}: missing value"
             else validateEntries rest (idx + 1))
    | _ => .gap

/-- Read one creation-loop entry into the typed payload the code stores:
`method_type` and `value` from the dict, `label` defaulting to `''`,
`is_primary` defaulting to `False`. `none` when the entry is outside the
modelled fragment. -/
def extractEntry (e : Json) : Option MethodIn :=
  match e with
  | .obj kvs =>
    match jlookup kvs "method_type", jlookup kvs "value" with
    | some (.str mt), some (.str v) =>
      (match jlookup kvs "label" with
       | none => some ""
       | some (.str s) => some s
       | some _ => none).bind (fun lab =>
      (match jlookup kvs "is_primary" with
       | none => some false
       | some (.bool b) => some b
       | some _ => none).map (fun pr =>
        { method_type := mt, label := lab, value := v, is_primary := pr }))
    | _, _ => none
  | _ => none

/-- Read a whole `contact_methods` array; `none` as soon as one entry is
outside the modelled fragment. -/
def entriesExtract : List Json → Option (List MethodIn)
  | [] => some []
  | e :: rest =>
    match extractEntry e, entriesExtract rest with
    | some i, some is => some (i :: is)
    | _, _ => none

/-- The method-creation loop shared by `ContactListView.post` and
`ContactDetailView.put`: create each entry in order. `.error` returns the
store mutated so far, modelling an exception escaping the loop (a missing
`method_type`/`value` key raises `KeyError` in the PUT path, which has no
surrounding `try`; non-string payloads are outside the modelled fragment). -/
def createMethodsJson (db : DB) (cid : Nat) : List Json → Except DB DB
  | [] => .ok db
  | e :: rest =>
    match extractEntry e with
    | none => .error db
    | some i =>
      createMethodsJson (createMethod db cid i.method_type i.label i.value i.is_primary)
        cid rest

/-! ### Request handlers (`contacts_app/views.py`) -/

/-- Handler `ContactListView.post`: validate the body, the name, and every contact
method entry, then create the contact and its methods and serialize it. -/
def contactListPost (db : DB) (body : Option Json) : HttpResp × DB :=
  match body with
  | none => (errResp 400 "Invalid JSON", db)
  | some dta =>
    if dta.falsy then (errResp 400 "Invalid JSON", db)
    else
      match dta with
      | .obj kvs =>
        match jlookup kvs "name" with
        | none => (errResp 400 "Missing required field: name", db)
        | some nv =>
          if nv.falsy then (errResp 400 "Missing required field: name", db)
          else
            let cms := (jlookup kvs "contact_methods").getD (.arr [])
            if cms.falsy then (errResp 400 "At least one contact method is required", db)
            else
              match cms with
              | .arr entries =>
                match validateEntries entries 0 with
                | .fail msg => (errResp 400 msg, db)
                | .gap => (unmodelledResp, db)
                | .ok =>
                  match nv with
                  | .str nm =>
                    let c : Contact := { id := db.nextContactId, name := nm, bookmarked := false }
                    let db1 : DB := { db with contacts := db.contacts ++ [c],
                                              nextContactId := db.nextContactId + 1 }
                    match createMethodsJson db1 c.id entries with
                    | .ok db2 => ({ status := 201, body := contactJson db2 c }, db2)
                    | .error db2 => (unmodelledResp, db2)
                  | _ => (unmodelledResp, db)
              | _ => (unmodelledResp, db)
      | _ => (unmodelledResp, db)

/-- Handler `ContactDetailView.put`: 404 when the contact is absent; otherwise parse
the body, apply `name`/`bookmarked` if supplied, and if a `contact_methods`
key is present delete all of the contact's methods and recreate from the
array; finally `contact.save()` persists the field updates. -/
def contactPut (db : DB) (cid : Nat) (body : Option Json) : HttpResp × DB :=
  match findContact db cid with
  | none => (errResp 404 s!"Contact with ID {cid} not found", db)
  | some c =>
    match body with
    | none => (errResp 400 "Invalid JSON", db)
    | some dta =>
      if dta.falsy then (errResp 400 "Invalid JSON", db)
      else
        match dta with
        | .obj kvs =>
          let nameR : Option String :=
            match jlookup kvs "name" with
            | none => some c.name
            | some (.str s) => some s
            | some _ => none
          let bmR : Option Bool :=
            match jlookup kvs "bookmarked" with
            | none => some c.bookmarked
            | some (.bool b) => some b
            | some _ => none
          match nameR, bmR with
          | some nm, some bm =>
            match jlookup kvs "contact_methods" with
            | none =>
              let c' : Contact := { c with name := nm, bookmarked := bm }
              let db' := saveContact db c'
              ({ status := 200, body := contactJson db' c' }, db')
            | some (.arr entries) =>
              let db1 : DB := { db with methods := db.methods.filter (fun m => m.contactId != cid) }
              match createMethodsJson db1 cid entries with
              | .ok db2 =>
                let c' : Contact := { c with name := nm, bookmarked := bm }
                let db3 := saveContact db2 c'
                ({ status := 200, body := contactJson db3 c' }, db3)
              | .error db2 => (unmodelledResp, db2)
            | some _ => (unmodelledResp, db)
          | _, _ => (unmodelledResp, db)
        | _ => (unmodelledResp, db)

/-- Handler `ContactMethodListView.post`: 404 when the contact is absent; then a
presence-only check of `method_type` and `value` (in that order), then create
the method through `ContactMethod.save` and serialize it. -/
def methodListPost (db : DB) (cid : Nat) (body : Option Json) : HttpResp × DB :=
  match findContact db cid with
  | none => (errResp 404 s!"Contact with ID {cid} not found", db)
  | some _ =>
    match body with
    | none => (errResp 400 "Invalid JSON", db)
    | some dta =>
      if dta.falsy then (errResp 400 "Invalid JSON", db)
      else
        match dta with
        | .obj kvs =>
          if (jlookup kvs "method_type").isNone then
            (errResp 400 "Missing required field: method_type", db)
          else if (jlookup kvs "value").isNone then
            (errResp 400 "Missing required field: value", db)
          else
            match extractEntry dta with
            | some i =>
              let m : ContactMethod :=
                { id := db.nextMethodId, contactId := cid, method_type := i.method_type,
                  label := i.label, value := i.value, is_primary := i.is_primary }
              let db' := createMethod db cid i.method_type i.label i.value i.is_primary
              ({ status := 201, body := methodJson m }, db')
            | none => (unmodelledResp, db)
        | _ => (unmodelledResp, db)

/-- The lookup `ContactMethod.objects.get(id=method_id)`, returning `none`
for `DoesNotExist`. The handler looks the method up by its id alone; the
contact id in the URL plays no part. -/
def findMethod (db : DB) (mid : Nat) : Option ContactMethod :=
  db.methods.find? (fun m => m.id == mid)

/-- Handler `ContactMethodDetailView.put`: 404 when the method is absent;
then parse the body, overwrite each of `method_type`/`label`/`value` when its
key is supplied (`is_primary` only when the key is present), and persist
through `ContactMethod.save`. The URL's contact id is ignored by the
handler. -/
def methodPut (db : DB) (mid : Nat) (body : Option Json) : HttpResp × DB :=
  match findMethod db mid with
  | none => (errResp 404 s!"Contact method with ID {mid} not found", db)
  | some m =>
    match body with
    | none => (errResp 400 "Invalid JSON", db)
    | some dta =>
      if dta.falsy then (errResp 400 "Invalid JSON", db)
      else
        match dta with
        | .obj kvs =>
          let mtR : Option String :=
            match jlookup kvs "method_type" with
            | none => some m.method_type
            | some (.str s) => some s
            | some _ => none
          let labR : Option String :=
            match jlookup kvs "label" with
            | none => some m.label
            | some (.str s) => some s
            | some _ => none
          let valR : Option String :=
            match jlookup kvs "value" with
            | none => some m.value
            | some (.str s) => some s
            | some _ => none
          let prR : Option Bool :=
            match jlookup kvs "is_primary" with
            | none => some m.is_primary
            | some (.bool b) => some b
            | some _ => none
          match mtR, labR, valR, prR with
          | some mt, some lab, some v, some pr =>
            let m' : ContactMethod :=
              { m with method_type := mt, label := lab, value := v, is_primary := pr }
            let db' := methodSave db m'
            ({ status := 200, body := methodJson m' }, db')
          | _, _, _, _ => (unmodelledResp, db)
        | _ => (unmodelledResp, db)

/-- Handler `ContactBookmarkView.post`: 404 when the contact is absent, else
toggle the bookmark flag, persist, and serialize the contact. The request
body is never read — the handler parses no JSON at all. -/
def bookmarkPost (db : DB) (cid : Nat) (_body : Option Json) : HttpResp × DB :=
  match findContact db cid with
  | none => (errResp 404 s!"Contact with ID {cid} not found", db)
  | some c =>
    let c' : Contact := { c with bookmarked := !c.bookmarked }
    let db' := saveContact db c'
    ({ status := 200, body := contactJson db' c' }, db')

/-! ### Bulk import (`ContactImportView.post`, row loop) -/

/-- One spreadsheet row. `none` in an optional field models the column being
absent from the uploaded document; a present empty cell reads back as the
string `"nan"` (pandas `NaN` through `str`). -/
structure Row where
  name : String
  bookmarked : Option String
  phone : Option String
  email : Option String
  social_media : Option String
  address : Option String
deriving Repr, DecidableEq

/-- The check `str(row.get('Bookmarked', 'No')).strip().lower() == 'yes'`. -/
def parseBookmarked (s : Option String) : Bool :=
  pyLower (pyStrip (s.getD "No").data) = "yes".data

/-- The typed method payloads one row yields, in the importer's column order
(Phone, Email, Social Media, Address); an absent column contributes nothing. -/
def rowMethodIns (row : Row) : List MethodIn :=
  (cellIns "phone" row.phone) ++ (cellIns "email" row.email)
    ++ (cellIns "social_media" row.social_media) ++ (cellIns "address" row.address)
where
  cellIns (mt : String) : Option String → List MethodIn
    | none => []
    | some s => (decodeCell s).map (fun t =>
        { method_type := mt, label := t.2.1, value := t.1, is_primary := t.2.2 })

/-- Outcome of processing one import row. -/
inductive RowOutcome where
  | imported (db : DB)
  | blank
  | rowError (msg : String)
deriving Repr

/-- One iteration of the import row loop: skip blank/`nan` names; otherwise
`get_or_create` by exact name, overwrite the bookmark flag, delete all of an
existing contact's methods, then add the row's methods. A name matching more
than one stored contact makes `get_or_create` raise `MultipleObjectsReturned`,
the one row-level exception arising inside the modelled fragment. -/
def processRow (db : DB) (row : Row) : RowOutcome :=
  let nm := (pyStrip row.name.data).asString
  if nm = "" || nm = "nan" then .blank
  else
    let bm := parseBookmarked row.bookmarked
    match db.contacts.filter (fun c => c.name == nm) with
    | [] =>
      let c : Contact := { id := db.nextContactId, name := nm, bookmarked := bm }
      let db1 : DB := { db with contacts := db.contacts ++ [c],
                                nextContactId := db.nextContactId + 1 }
      .imported (createMethods db1 c.id (rowMethodIns row))
    | [c] =>
      let db1 := saveContact db { c with bookmarked := bm }
      let db2 : DB := { db1 with methods := db1.methods.filter (fun m => m.contactId != c.id) }
      .imported (createMethods db2 c.id (rowMethodIns row))
    | _ => .rowError "get() returned more than one Contact"

/-- The import accumulator: `imported`/`skipped` counts and the error list. -/
structure ImpAcc where
  imported : Nat
  skipped : Nat
  errors : List String
deriving Repr, DecidableEq

/-- The import row loop: best-effort, row by row. A blank name counts as
skipped; a row-level exception is recorded keyed by `index + 2` and counts as
skipped; an imported row counts as imported; processing always continues. -/
def importLoop (db : DB) (rows : List Row) (idx : Nat) (acc : ImpAcc) : DB × ImpAcc :=
  match rows with
  | [] => (db, acc)
  | row :: rest =>
    match processRow db row with
    | .blank => importLoop db rest (idx + 1) { acc with skipped := acc.skipped + 1 }
    | .rowError msg =>
      importLoop db rest (idx + 1)
        { acc with skipped := acc.skipped + 1,
                   errors := acc.errors ++ [s!"Row {idx + 2}: {msg}"] }
    | .imported db' => importLoop db' rest (idx + 1) { acc with imported := acc.imported + 1 }

/-- The import response: message and counts, plus an `errors` key holding at
most the first 10 collected error messages when any were collected. -/
def importResponse (acc : ImpAcc) : HttpResp :=
  let n := acc.imported
  let base := [("message", Json.str s!"Successfully imported {n} contact(s)"),
               ("imported", Json.num acc.imported), ("skipped", Json.num acc.skipped)]
  { status := 200,
    body := .obj (if acc.errors.isEmpty then base
                  else base ++ [("errors", .arr ((acc.errors.take 10).map .str))]) }

/-- The whole row-processing phase of `ContactImportView.post` (after the
file/extension/required-column checks succeed). -/
def importRows (db : DB) (rows : List Row) : HttpResp × DB :=
  let r := importLoop db rows 0 { imported := 0, skipped := 0, errors := [] }
  (importResponse r.2, r.1)

/-! ### Helper lemmas about the save operation -/

theorem demoteOne_id (m x : ContactMethod) : (demoteOne m x).id = x.id := by
  unfold demoteOne; split <;> rfl

theorem demoteOne_contactId (m x : ContactMethod) :
    (demoteOne m x).contactId = x.contactId := by
  unfold demoteOne; split <;> rfl

theorem demoteOne_method_type (m x : ContactMethod) :
    (demoteOne m x).method_type = x.method_type := by
  unfold demoteOne; split <;> rfl

theorem demoteOne_label (m x : ContactMethod) : (demoteOne m x).label = x.label := by
  unfold demoteOne; split <;> rfl

theorem demoteOne_value (m x : ContactMethod) : (demoteOne m x).value = x.value := by
  unfold demoteOne; split <;> rfl

/-- The group predicate of `primariesFor`, for the saved method's own group. -/
def grpPred (m x : ContactMethod) : Bool :=
  x.contactId == m.contactId && x.method_type == m.method_type && x.is_primary

theorem grpPred_demoteOne_eq_false (m x : ContactMethod) (hx : x.id ≠ m.id) :
    grpPred m (demoteOne m x) = false := by
  unfold demoteOne
  split
  · simp [grpPred]
  · rename_i h
    simp only [grpPred]
    by_contra hcon
    rw [Bool.not_eq_false] at hcon
    simp only [Bool.and_eq_true, beq_iff_eq] at hcon
    apply h
    simp only [Bool.and_eq_true, beq_iff_eq, bne_iff_ne]
    tauto

theorem demoteOne_of_id_eq (m x : ContactMethod) (hx : x.id = m.id) :
    demoteOne m x = x := by
  unfold demoteOne
  split
  · rename_i h
    simp only [Bool.and_eq_true, bne_iff_ne] at h
    exact absurd hx h.2
  · rfl

theorem filter_grpPred_demoted_nil (m : ContactMethod) (l : List ContactMethod)
    (h : ∀ x ∈ l, x.id ≠ m.id) :
    (l.map (demoteOne m)).filter (grpPred m) = [] := by
  rw [List.filter_eq_nil_iff]
  intro a ha
  rcases List.mem_map.mp ha with ⟨x, hx, rfl⟩
  simp [grpPred_demoteOne_eq_false m x (h x hx)]

theorem filter_grpPred_update_nil (m : ContactMethod) (l : List ContactMethod)
    (h : ∀ x ∈ l, x.id ≠ m.id) :
    ((l.map (demoteOne m)).map (replaceById m)).filter (grpPred m) = [] := by
  rw [List.filter_eq_nil_iff]
  intro a ha
  rcases List.mem_map.mp ha with ⟨b, hb, rfl⟩
  rcases List.mem_map.mp hb with ⟨x, hx, rfl⟩
  have hid : (demoteOne m x).id ≠ m.id := by rw [demoteOne_id]; exact h x hx
  have : replaceById m (demoteOne m x) = demoteOne m x := by
    unfold replaceById; rw [if_neg (by simpa using hid)]
  rw [this]
  simp [grpPred_demoteOne_eq_false m x (h x hx)]

theorem grpPred_self (m : ContactMethod) (hp : m.is_primary = true) :
    grpPred m m = true := by
  simp [grpPred, hp]

theorem filter_grpPred_update (m : ContactMethod) :
    ∀ l : List ContactMethod, (l.map (fun x => x.id)).Nodup →
      l.any (fun x => x.id == m.id) = true → m.is_primary = true →
      ((l.map (demoteOne m)).map (replaceById m)).filter (grpPred m) = [m] := by
  intro l
  induction l with
  | nil => intro _ hany _; simp at hany
  | cons x t ih =>
    intro hnd hany hp
    rw [List.map_cons] at hnd
    have hnd' := List.nodup_cons.mp hnd
    by_cases hx : x.id = m.id
    · have hdx : demoteOne m x = x := demoteOne_of_id_eq m x hx
      have hrx : replaceById m x = m := by unfold replaceById; rw [if_pos (by simpa using hx)]
      simp only [List.map_cons, List.filter_cons, hdx, hrx, grpPred_self m hp, if_true]
      have ht : ∀ y ∈ t, y.id ≠ m.id := by
        intro y hy hcon
        apply hnd'.1
        have hyx : y.id = x.id := by rw [hcon, hx]
        rw [← hyx]
        exact List.mem_map_of_mem (fun z => z.id) hy
      rw [filter_grpPred_update_nil m t ht]
    · have hid : (demoteOne m x).id ≠ m.id := by rw [demoteOne_id]; exact hx
      have hrx : replaceById m (demoteOne m x) = demoteOne m x := by
        unfold replaceById; rw [if_neg (by simpa using hid)]
      have hany' : t.any (fun y => y.id == m.id) = true := by
        rcases List.any_eq_true.mp hany with ⟨y, hy, hyid⟩
        rcases List.mem_cons.mp hy with rfl | hy'
        · exact absurd (by simpa using hyid) hx
        · exact List.any_eq_true.mpr ⟨y, hy', hyid⟩
      simp only [List.map_cons, List.filter_cons, hrx,
        grpPred_demoteOne_eq_false m x hx, if_false]
      exact ih hnd'.2 hany' hp

/-- Claim C1: saving a method with `is_primary = true` leaves it as the one
and only primary of its `(contact, method_type)` group: every other stored
method of that group has its flag cleared by the same save, the saved row
keeps its flag, and this holds for both the INSERT path of
`ContactMethod.save` (method creation during contact creation, contact
update, standalone method creation, bulk import) and its UPDATE path (method
update) — never zero primaries, never more than one. -/
theorem c1_primary_unique_after_save (db : DB) (m : ContactMethod)
    (hnd : (db.methods.map (fun x => x.id)).Nodup) (hp : m.is_primary = true) :
    primariesFor (methodSave db m) m.contactId m.method_type = [m] := by
  unfold methodSave demote
  rw [hp]
  simp only [if_true]
  have hgrp : ∀ x : ContactMethod,
      (x.contactId == m.contactId && x.method_type == m.method_type && x.is_primary)
        = grpPred m x := fun _ => rfl
  by_cases hany : (db.methods.map (demoteOne m)).any (fun x => x.id == m.id) = true
  · rw [if_pos hany]
    have hany' : db.methods.any (fun x => x.id == m.id) = true := by
      rw [List.any_map] at hany
      simpa [Function.comp, demoteOne_id] using hany
    simp only [primariesFor]
    simpa [hgrp] using filter_grpPred_update m db.methods hnd hany' hp
  · rw [if_neg hany]
    have hall : ∀ x ∈ db.methods, x.id ≠ m.id := by
      intro x hx hcon
      exact hany (List.any_eq_true.mpr
        ⟨demoteOne m x, List.mem_map_of_mem (demoteOne m) hx,
         by simp [demoteOne_id, hcon]⟩)
    simp only [primariesFor, List.filter_append]
    rw [show (fun x : ContactMethod =>
        x.contactId == m.contactId && x.method_type == m.method_type && x.is_primary)
        = grpPred m from rfl]
    rw [filter_grpPred_demoted_nil m db.methods hall]
    simp [grpPred_self m hp]

/-- Witness for C1 at a concrete store: a second primary phone method is
saved and the previously primary method is demoted. -/
theorem c1_primary_unique_after_save_witness :
    (((⟨[⟨1, "A", false⟩], [⟨1, 1, "phone", "", "x", true⟩], 2, 2⟩ : DB).methods.map
        (fun x => x.id)).Nodup
      ∧ (⟨2, 1, "phone", "", "y", true⟩ : ContactMethod).is_primary = true)
    ∧ primariesFor
        (methodSave ⟨[⟨1, "A", false⟩], [⟨1, 1, "phone", "", "x", true⟩], 2, 2⟩
          ⟨2, 1, "phone", "", "y", true⟩) 1 "phone"
        = [⟨2, 1, "phone", "", "y", true⟩] :=
  ⟨⟨by decide, rfl⟩,
    c1_primary_unique_after_save ⟨[⟨1, "A", false⟩], [⟨1, 1, "phone", "", "x", true⟩], 2, 2⟩
      ⟨2, 1, "phone", "", "y", true⟩ (by decide) rfl⟩

/-! ### Primary-method resolution (claim C4) -/

theorem eq_singleton_of_length_le_one {α : Type} {l : List α} {m : α}
    (h : l.length ≤ 1) (hm : m ∈ l) : l = [m] := by
  match l with
  | [] => exact absurd hm (List.not_mem_nil m)
  | [x] =>
    rw [List.mem_singleton] at hm
    rw [hm]
  | x :: y :: t => simp at h

theorem primaryOfType_spec (db : DB) (cid : Nat) (t : String)
    (h1 : (primariesFor db cid t).length ≤ 1) :
    (∀ m ∈ db.methods, m.contactId = cid → m.method_type = t → m.is_primary = true →
        primaryOfType db cid t = some m.value)
    ∧ ((∀ m ∈ db.methods, ¬(m.contactId = cid ∧ m.method_type = t ∧ m.is_primary = true)) →
        primaryOfType db cid t = (firstByStoredOrder db cid t).map (fun x => x.value))
    ∧ (db.methods.filter (fun m => m.contactId == cid && m.method_type == t) = [] →
        primaryOfType db cid t = none) := by
  refine ⟨?_, ?_, ?_⟩
  · intro m hm hc ht hp
    have hmem : m ∈ primariesFor db cid t := by
      simp only [primariesFor, List.mem_filter]
      exact ⟨hm, by simp [hc, ht, hp]⟩
    have heq : primariesFor db cid t = [m] := eq_singleton_of_length_le_one h1 hmem
    unfold primaryOfType
    rw [show db.methods.filter
        (fun m => m.contactId == cid && m.method_type == t && m.is_primary)
        = primariesFor db cid t from rfl, heq]
    rfl
  · intro h
    have heq : primariesFor db cid t = [] := by
      unfold primariesFor
      rw [List.filter_eq_nil_iff]
      intro a ha
      have := h a ha
      simp only [Bool.and_eq_true, beq_iff_eq]
      tauto
    unfold primaryOfType
    rw [show db.methods.filter
        (fun m => m.contactId == cid && m.method_type == t && m.is_primary)
        = primariesFor db cid t from rfl, heq]
    rfl
  · intro h
    have h2 : primariesFor db cid t = [] := by
      unfold primariesFor
      rw [List.filter_eq_nil_iff] at h ⊢
      intro a ha
      have := h a ha
      simp only [Bool.and_eq_true, beq_iff_eq] at this ⊢
      tauto
    unfold primaryOfType
    rw [show db.methods.filter
        (fun m => m.contactId == cid && m.method_type == t && m.is_primary)
        = primariesFor db cid t from rfl, h2, h]
    rfl

/-- Claim C4: for every contact and all combinations of zero, one, or many
methods, `primary_email` (resp. `primary_phone`) returns the value of the
method of type email (resp. phone) flagged primary when one exists, otherwise
the value of the first method of that type by stored order (the model's
declared default ordering), otherwise null. The hypotheses state the
primary-uniqueness invariant of reachable stores. -/
theorem c4_primary_resolution (db : DB) (cid : Nat)
    (he : (primariesFor db cid "email").length ≤ 1)
    (hp : (primariesFor db cid "phone").length ≤ 1) :
    ((∀ m ∈ db.methods,
        m.contactId = cid → m.method_type = "email" → m.is_primary = true →
        primary_email db cid = some m.value)
      ∧ ((∀ m ∈ db.methods,
            ¬(m.contactId = cid ∧ m.method_type = "email" ∧ m.is_primary = true)) →
          primary_email db cid = (firstByStoredOrder db cid "email").map (fun x => x.value))
      ∧ (db.methods.filter (fun m => m.contactId == cid && m.method_type == "email") = [] →
          primary_email db cid = none))
    ∧ ((∀ m ∈ db.methods,
        m.contactId = cid → m.method_type = "phone" → m.is_primary = true →
        primary_phone db cid = some m.value)
      ∧ ((∀ m ∈ db.methods,
            ¬(m.contactId = cid ∧ m.method_type = "phone" ∧ m.is_primary = true)) →
          primary_phone db cid = (firstByStoredOrder db cid "phone").map (fun x => x.value))
      ∧ (db.methods.filter (fun m => m.contactId == cid && m.method_type == "phone") = [] →
          primary_phone db cid = none)) :=
  ⟨primaryOfType_spec db cid "email" he, primaryOfType_spec db cid "phone" hp⟩

/-- Witness for C4: a store holding a flagged-primary email and another
email; `primary_email` returns the flagged one's value. -/
theorem c4_primary_resolution_witness :
    ((primariesFor ⟨[⟨1, "A", false⟩],
        [⟨1, 1, "email", "z", "first@x", true⟩, ⟨2, 1, "email", "b", "second@x", false⟩],
        2, 3⟩ 1 "email").length ≤ 1
      ∧ (primariesFor ⟨[⟨1, "A", false⟩],
          [⟨1, 1, "email", "z", "first@x", true⟩, ⟨2, 1, "email", "b", "second@x", false⟩],
          2, 3⟩ 1 "phone").length ≤ 1)
    ∧ primary_email ⟨[⟨1, "A", false⟩],
        [⟨1, 1, "email", "z", "first@x", true⟩, ⟨2, 1, "email", "b", "second@x", false⟩],
        2, 3⟩ 1 = some "first@x" :=
  ⟨⟨by decide, by decide⟩,
    (c4_primary_resolution ⟨[⟨1, "A", false⟩],
        [⟨1, 1, "email", "z", "first@x", true⟩, ⟨2, 1, "email", "b", "second@x", false⟩],
        2, 3⟩ 1 (by decide) (by decide)).1.1
      ⟨1, 1, "email", "z", "first@x", true⟩ (by decide) rfl rfl rfl⟩

/-! ### Falsy JSON bodies (claim C10) -/

/-- Counterexample to claim C10 as stated: the bookmark-toggle POST never
reads its body — a request whose body is the falsy JSON value `{}` is
answered 200 and the contact's bookmark flag flips, so not every POST with a
falsy JSON body answers 400 and changes nothing. -/
theorem c10_counterexample :
    (Json.obj []).falsy = true
    ∧ (bookmarkPost ⟨[⟨1, "Alice", false⟩], [], 2, 1⟩ 1 (some (.obj []))).1.status = 200
    ∧ (bookmarkPost ⟨[⟨1, "Alice", false⟩], [], 2, 1⟩ 1 (some (.obj []))).2.contacts
        = [⟨1, "Alice", true⟩] :=
  ⟨rfl, rfl, rfl⟩

/-- Claim C10 (amended): every POST or PUT handler that parses its JSON body
— contact creation, contact update, method creation, method update — answers
a body that parses to a Python-falsy value (`{}`, `null`, `false`, `0`,
`""`, `[]`) with 400 "Invalid JSON" and changes nothing; in particular a
`PUT` contact update with body `{}` is rejected rather than performed as a
no-op partial update. For contact PUT, method create and method update the
404 lookup precedes body parsing, hence the existence hypotheses. The
bookmark-toggle POST is the exception: it never reads its body, so the same
falsy body is accepted with 200 and the flag toggles. -/
theorem c10_amended_falsy_json (db : DB) (cid mid : Nat) (v : Json)
    (hf : v.falsy = true) :
    contactListPost db (some v) = (errResp 400 "Invalid JSON", db)
    ∧ (∀ c, findContact db cid = some c →
        contactPut db cid (some v) = (errResp 400 "Invalid JSON", db))
    ∧ (∀ c, findContact db cid = some c →
        methodListPost db cid (some v) = (errResp 400 "Invalid JSON", db))
    ∧ (∀ m, findMethod db mid = some m →
        methodPut db mid (some v) = (errResp 400 "Invalid JSON", db))
    ∧ (∀ c, findContact db cid = some c →
        (bookmarkPost db cid (some v)).1.status = 200
        ∧ (bookmarkPost db cid (some v)).2
            = saveContact db { c with bookmarked := !c.bookmarked }) := by
  refine ⟨?_, ?_, ?_, ?_, ?_⟩
  · simp [contactListPost, hf]
  · intro c hc
    simp [contactPut, hc, hf]
  · intro c hc
    simp [methodListPost, hc, hf]
  · intro m hm
    simp [methodPut, hm, hf]
  · intro c hc
    unfold bookmarkPost
    rw [hc]
    exact ⟨rfl, rfl⟩

/-- Witness for the amended C10: on a concrete store, body `{}` is rejected
unchanged by a contact PUT and by a method update, while the bookmark POST
accepts it and flips the flag. -/
theorem c10_amended_falsy_json_witness :
    ((Json.obj []).falsy = true
      ∧ findMethod ⟨[⟨1, "Alice", false⟩], [⟨1, 1, "phone", "", "5", false⟩], 2, 2⟩ 1
          = some ⟨1, 1, "phone", "", "5", false⟩)
    ∧ (contactPut ⟨[⟨1, "Alice", false⟩], [⟨1, 1, "phone", "", "5", false⟩], 2, 2⟩ 1
          (some (.obj []))
        = (errResp 400 "Invalid JSON",
            ⟨[⟨1, "Alice", false⟩], [⟨1, 1, "phone", "", "5", false⟩], 2, 2⟩)
      ∧ methodPut ⟨[⟨1, "Alice", false⟩], [⟨1, 1, "phone", "", "5", false⟩], 2, 2⟩ 1
          (some (.obj []))
        = (errResp 400 "Invalid JSON",
            ⟨[⟨1, "Alice", false⟩], [⟨1, 1, "phone", "", "5", false⟩], 2, 2⟩)
      ∧ (bookmarkPost ⟨[⟨1, "Alice", false⟩], [⟨1, 1, "phone", "", "5", false⟩], 2, 2⟩ 1
          (some (.obj []))).1.status = 200) :=
  ⟨⟨rfl, rfl⟩,
    (c10_amended_falsy_json ⟨[⟨1, "Alice", false⟩], [⟨1, 1, "phone", "", "5", false⟩], 2, 2⟩
        1 1 (.obj []) rfl).2.1 ⟨1, "Alice", false⟩ rfl,
    (c10_amended_falsy_json ⟨[⟨1, "Alice", false⟩], [⟨1, 1, "phone", "", "5", false⟩], 2, 2⟩
        1 1 (.obj []) rfl).2.2.2.1 ⟨1, 1, "phone", "", "5", false⟩ rfl,
    ((c10_amended_falsy_json ⟨[⟨1, "Alice", false⟩], [⟨1, 1, "phone", "", "5", false⟩], 2, 2⟩
        1 1 (.obj []) rfl).2.2.2.2 ⟨1, "Alice", false⟩ rfl).1⟩

/-! ### Method creation validation (claim C8) -/

/-- Counterexample to claim C8 as stated: posting a method whose
`method_type` and `value` are present but empty strings is not rejected —
the handler answers 201 and persists a method with empty type and value,
because `ContactMethodListView.post` checks only key presence. -/
theorem c8_counterexample :
    (methodListPost ⟨[⟨1, "Alice", false⟩], [], 2, 1⟩ 1
        (some (.obj [("method_type", Json.str ""), ("value", Json.str "")]))).1.status = 201
    ∧ (methodListPost ⟨[⟨1, "Alice", false⟩], [], 2, 1⟩ 1
        (some (.obj [("method_type", Json.str ""), ("value", Json.str "")]))).2.methods
      = [⟨1, 1, "", "", "", false⟩] :=
  ⟨rfl, rfl⟩

/-- Claim C8 (amended): creating a method for a contact returns 404 when the
contact is absent, and 400 when the `method_type` key (checked first) or the
`value` key is absent from the body, with nothing persisted; the check is
presence-only, so present-but-empty values are accepted. -/
theorem c8_amended_presence_only (db : DB) (cid : Nat) :
    (findContact db cid = none → ∀ body,
        methodListPost db cid body = (errResp 404 s!"Contact with ID {cid} not found", db))
    ∧ (∀ c kvs, findContact db cid = some c → kvs ≠ [] →
        jlookup kvs "method_type" = none →
        methodListPost db cid (some (.obj kvs))
          = (errResp 400 "Missing required field: method_type", db))
    ∧ (∀ c kvs v, findContact db cid = some c → kvs ≠ [] →
        jlookup kvs "method_type" = some v → jlookup kvs "value" = none →
        methodListPost db cid (some (.obj kvs))
          = (errResp 400 "Missing required field: value", db)) := by
  refine ⟨?_, ?_, ?_⟩
  · intro hnone body
    simp [methodListPost, hnone]
  · intro c kvs hc hne hmt
    simp [methodListPost, hc, Json.falsy, hne, hmt]
  · intro c kvs v hc hne hmt hv
    simp [methodListPost, hc, Json.falsy, hne, hmt, hv]

/-- Witness for the amended C8: the absent-contact and missing-key failures
at a concrete store. -/
theorem c8_amended_presence_only_witness :
    (findContact ⟨[⟨1, "Alice", false⟩], [], 2, 1⟩ 2 = none
      ∧ methodListPost ⟨[⟨1, "Alice", false⟩], [], 2, 1⟩ 2 none
          = (errResp 404 "Contact with ID 2 not found", ⟨[⟨1, "Alice", false⟩], [], 2, 1⟩))
    ∧ methodListPost ⟨[⟨1, "Alice", false⟩], [], 2, 1⟩ 1
        (some (.obj [("value", Json.str "5")]))
        = (errResp 400 "Missing required field: method_type", ⟨[⟨1, "Alice", false⟩], [], 2, 1⟩) :=
  ⟨⟨rfl, (c8_amended_presence_only ⟨[⟨1, "Alice", false⟩], [], 2, 1⟩ 2).1 rfl none⟩,
    (c8_amended_presence_only ⟨[⟨1, "Alice", false⟩], [], 2, 1⟩ 1).2.1
      ⟨1, "Alice", false⟩ [("value", Json.str "5")] rfl (List.cons_ne_nil _ _) rfl⟩

/-! ### Name non-emptiness (claim C9) -/

/-- Counterexample to claim C9 as stated: a PUT whose body supplies
`name: ""` succeeds (200) and stores the empty name —
`ContactDetailView.put` does not re-validate the name. -/
theorem c9_counterexample :
    ((contactPut ⟨[⟨1, "Alice", false⟩], [], 2, 1⟩ 1
        (some (.obj [("name", Json.str "")]))).2).contacts = [⟨1, "", false⟩]
    ∧ (contactPut ⟨[⟨1, "Alice", false⟩], [], 2, 1⟩ 1
        (some (.obj [("name", Json.str "")]))).1.status = 200 :=
  ⟨rfl, rfl⟩

theorem createMethod_contacts (db : DB) (cid : Nat) (mt lab v : String) (p : Bool) :
    (createMethod db cid mt lab v p).contacts = db.contacts := by
  unfold createMethod methodSave demote
  dsimp only
  split <;> split <;> rfl

theorem createMethodsJson_contacts (cid : Nat) :
    ∀ (entries : List Json) (db d : DB),
      (createMethodsJson db cid entries = .ok d ∨ createMethodsJson db cid entries = .error d) →
      d.contacts = db.contacts := by
  intro entries
  induction entries with
  | nil =>
    intro db d h
    rcases h with h | h
    · rw [show createMethodsJson db cid [] = .ok db from rfl] at h
      cases h; rfl
    · rw [show createMethodsJson db cid [] = .ok db from rfl] at h
      cases h
  | cons e rest ih =>
    intro db d h
    rcases h with h | h
    · unfold createMethodsJson at h
      cases hx : extractEntry e with
      | none => rw [hx] at h; cases h
      | some i =>
        rw [hx] at h
        have := ih _ d (Or.inl h)
        rw [this, createMethod_contacts]
    · unfold createMethodsJson at h
      cases hx : extractEntry e with
      | none => rw [hx] at h; cases h; rfl
      | some i =>
        rw [hx] at h
        have := ih _ d (Or.inr h)
        rw [this, createMethod_contacts]

theorem methodListPost_contacts (db : DB) (cid : Nat) (body : Option Json) :
    (methodListPost db cid body).2.contacts = db.contacts := by
  unfold methodListPost
  cases hfc : findContact db cid with
  | none => rfl
  | some c =>
    cases body with
    | none => rfl
    | some dta =>
      dsimp only
      split
      · rfl
      · cases dta with
        | obj kvs =>
          dsimp only
          split
          · rfl
          · split
            · rfl
            · cases hx : extractEntry (.obj kvs) with
              | none => simp [hx]
              | some i => simp [hx, createMethod_contacts]
        | null => rfl
        | bool b => rfl
        | num n => rfl
        | str s => rfl
        | arr xs => rfl

theorem contactListPost_names (db : DB) (body : Option Json)
    (hold : ∀ x ∈ db.contacts, x.name ≠ "") :
    ∀ x ∈ (contactListPost db body).2.contacts, x.name ≠ "" := by
  unfold contactListPost
  cases body with
  | none => exact hold
  | some dta =>
    dsimp only
    split
    · exact hold
    · cases dta with
      | obj kvs =>
        dsimp only
        cases hn : jlookup kvs "name" with
        | none => exact hold
        | some nv =>
          dsimp only
          split
          · exact hold
          · rename_i hnf
            split
            · exact hold
            · split
              · rename_i entries heq
                split
                · exact hold
                · exact hold
                · cases nv with
                  | str nm =>
                    dsimp only
                    have hnm : nm ≠ "" := by
                      intro hcon
                      exact hnf (by simp [Json.falsy, hcon])
                    have hbase : ∀ x ∈ db.contacts ++
                        [(⟨db.nextContactId, nm, false⟩ : Contact)], x.name ≠ "" := by
                      intro x hx
                      rcases List.mem_append.mp hx with hx | hx
                      · exact hold x hx
                      · rw [List.mem_singleton] at hx
                        rw [hx]
                        exact hnm
                    cases hcm : createMethodsJson
                        { db with contacts := db.contacts ++ [⟨db.nextContactId, nm, false⟩],
                                  nextContactId := db.nextContactId + 1 }
                        db.nextContactId entries with
                    | ok d =>
                      have hc : d.contacts = db.contacts
                          ++ [({ id := db.nextContactId, name := nm, bookmarked := false } : Contact)] :=
                        createMethodsJson_contacts db.nextContactId entries _ d (Or.inl hcm)
                      intro x hx
                      exact hbase x (hc ▸ hx)
                    | error d =>
                      have hc : d.contacts = db.contacts
                          ++ [({ id := db.nextContactId, name := nm, bookmarked := false } : Contact)] :=
                        createMethodsJson_contacts db.nextContactId entries _ d (Or.inr hcm)
                      intro x hx
                      exact hbase x (hc ▸ hx)
                  | null => exact hold
                  | bool b => exact hold
                  | num n => exact hold
                  | arr xs => exact hold
                  | obj o => exact hold
              · exact hold
      | null => exact hold
      | bool b => exact hold
      | num n => exact hold
      | str s => exact hold
      | arr xs => exact hold

theorem saveContact_names (db : DB) (c : Contact)
    (hold : ∀ x ∈ db.contacts, x.name ≠ "") (hc : c.name ≠ "") :
    ∀ x ∈ (saveContact db c).contacts, x.name ≠ "" := by
  intro x hx
  unfold saveContact at hx
  rcases List.mem_map.mp hx with ⟨y, hy, rfl⟩
  split
  · exact hc
  · exact hold y hy

theorem contactPut_names (db : DB) (cid : Nat) (kvs : List (String × Json))
    (hold : ∀ x ∈ db.contacts, x.name ≠ "")
    (hname : jlookup kvs "name" = none ∨ ∃ s, jlookup kvs "name" = some (.str s) ∧ s ≠ "") :
    ∀ x ∈ (contactPut db cid (some (.obj kvs))).2.contacts, x.name ≠ "" := by
  unfold contactPut
  cases hfc : findContact db cid with
  | none => exact hold
  | some c =>
    have hcname : c.name ≠ "" :=
      hold c (List.mem_of_find?_eq_some hfc)
    dsimp only
    split
    · exact hold
    · have hnm : ∃ nm, (match jlookup kvs "name" with
          | none => some c.name
          | some (.str s) => some s
          | some _ => none) = some nm ∧ nm ≠ "" := by
        rcases hname with hn | ⟨s, hs, hsne⟩
        · exact ⟨c.name, by rw [hn], hcname⟩
        · exact ⟨s, by rw [hs], hsne⟩
      rcases hnm with ⟨nm, hnmeq, hnmne⟩
      rw [hnmeq]
      cases hbm : jlookup kvs "bookmarked" with
      | none =>
        dsimp only
        cases hcm : jlookup kvs "contact_methods" with
        | none => exact saveContact_names db _ hold hnmne
        | some w =>
          cases w with
          | arr entries =>
            dsimp only
            cases hrun : createMethodsJson
                { db with methods := db.methods.filter (fun m => m.contactId != cid) }
                cid entries with
            | ok d =>
              have hc2 := createMethodsJson_contacts cid entries _ d (Or.inl hrun)
              intro x hx
              refine saveContact_names d _ ?_ hnmne x hx
              rw [hc2]
              exact hold
            | error d =>
              have hc2 := createMethodsJson_contacts cid entries _ d (Or.inr hrun)
              intro x hx
              rw [hc2] at hx
              exact hold x hx
          | null => exact hold
          | bool b => exact hold
          | num n => exact hold
          | str s => exact hold
          | obj o => exact hold
      | some w =>
        cases w with
        | bool b =>
          dsimp only
          cases hcm : jlookup kvs "contact_methods" with
          | none => exact saveContact_names db _ hold hnmne
          | some w2 =>
            cases w2 with
            | arr entries =>
              dsimp only
              cases hrun : createMethodsJson
                  { db with methods := db.methods.filter (fun m => m.contactId != cid) }
                  cid entries with
              | ok d =>
                have hc2 := createMethodsJson_contacts cid entries _ d (Or.inl hrun)
                intro x hx
                refine saveContact_names d _ ?_ hnmne x hx
                rw [hc2]
                exact hold
              | error d =>
                have hc2 := createMethodsJson_contacts cid entries _ d (Or.inr hrun)
                intro x hx
                rw [hc2] at hx
                exact hold x hx
            | null => exact hold
            | bool b2 => exact hold
            | num n => exact hold
            | str s => exact hold
            | obj o => exact hold
        | null => exact hold
        | num n => exact hold
        | str s => exact hold
        | arr xs => exact hold
        | obj o => exact hold

/-- Claim C9 (amended): contact creation validates the name, so created
contacts have non-empty names, and method creation never touches names; but
`PUT` does not re-validate — non-emptiness is preserved by a PUT only when
the supplied `name` is absent or a non-empty string (supplying `name: ""`
stores the empty name, as the counterexample shows). -/
theorem c9_amended_names (db : DB) (cid : Nat) (kvs : List (String × Json))
    (hold : ∀ x ∈ db.contacts, x.name ≠ "")
    (hname : jlookup kvs "name" = none ∨ ∃ s, jlookup kvs "name" = some (.str s) ∧ s ≠ "") :
    (∀ x ∈ (contactPut db cid (some (.obj kvs))).2.contacts, x.name ≠ "")
    ∧ (∀ body, ∀ x ∈ (contactListPost db body).2.contacts, x.name ≠ "")
    ∧ (∀ body, (methodListPost db cid body).2.contacts = db.contacts) :=
  ⟨contactPut_names db cid kvs hold hname,
   fun body => contactListPost_names db body hold,
   fun body => methodListPost_contacts db cid body⟩

/-- Witness for the amended C9: a PUT supplying a non-empty name keeps every
stored name non-empty. -/
theorem c9_amended_names_witness :
    ((∀ x ∈ (⟨[⟨1, "Alice", false⟩], [], 2, 1⟩ : DB).contacts, x.name ≠ "")
      ∧ jlookup [("name", Json.str "Bob")] "name" = some (.str "Bob"))
    ∧ (∀ x ∈ (contactPut ⟨[⟨1, "Alice", false⟩], [], 2, 1⟩ 1
        (some (.obj [("name", Json.str "Bob")]))).2.contacts, x.name ≠ "") :=
  ⟨⟨by decide, rfl⟩,
    (c9_amended_names ⟨[⟨1, "Alice", false⟩], [], 2, 1⟩ 1 [("name", Json.str "Bob")]
      (by decide) (Or.inr ⟨"Bob", rfl, by decide⟩)).1⟩

/-! ### Contact creation validation (claim C3) -/

theorem validateEntries_append_ok :
    ∀ (pre rest : List Json) (idx : Nat),
      (∀ x ∈ pre, entryOk x = true) →
      validateEntries (pre ++ rest) idx = validateEntries rest (idx + pre.length) := by
  intro pre
  induction pre with
  | nil => intro rest idx _; simp
  | cons e pre ih =>
    intro rest idx h
    have he : entryOk e = true := h e (List.mem_cons_self e pre)
    cases e with
    | obj kvs =>
      simp only [entryOk] at he
      rw [Bool.and_eq_true] at he
      cases hmt : jlookup kvs "method_type" with
      | none => rw [hmt] at he; exact absurd he.1 (by simp)
      | some v =>
        rw [hmt] at he
        cases hv : jlookup kvs "value" with
        | none => rw [hv] at he; exact absurd he.2 (by simp)
        | some v2 =>
          rw [hv] at he
          have hv1 : v.falsy = false := by
            have := he.1; rwa [Bool.not_eq_true'] at this
          have hv2 : v2.falsy = false := by
            have := he.2; rwa [Bool.not_eq_true'] at this
          show validateEntries (Json.obj kvs :: (pre ++ rest)) idx = _
          simp only [validateEntries]
          rw [hmt]
          simp only [hv1, Bool.false_eq_true, if_false]
          rw [hv]
          simp only [hv2, Bool.false_eq_true, if_false]
          rw [ih rest (idx + 1) (fun x hx => h x (List.mem_cons_of_mem _ hx))]
          simp only [List.length_cons]
          have harith : idx + 1 + pre.length = idx + (pre.length + 1) := by omega
          rw [harith]
    | null => exact absurd he (by simp [entryOk])
    | bool b => exact absurd he (by simp [entryOk])
    | num n => exact absurd he (by simp [entryOk])
    | str s => exact absurd he (by simp [entryOk])
    | arr xs => exact absurd he (by simp [entryOk])

theorem validateEntries_head_bad_mt (ekvs : List (String × Json)) (rest : List Json)
    (idx : Nat)
    (hbad : jlookup ekvs "method_type" = none
      ∨ (∃ v, jlookup ekvs "method_type" = some v ∧ v.falsy = true)) :
    validateEntries (.obj ekvs :: rest) idx
      = .fail s!"Contact method {idx + 1}: missing method_type" := by
  simp only [validateEntries]
  rcases hbad with h | ⟨v, hv, hvf⟩
  · rw [h]
  · rw [hv]
    simp [hvf]

theorem validateEntries_head_bad_val (ekvs : List (String × Json)) (rest : List Json)
    (idx : Nat) (v : Json)
    (hmt : jlookup ekvs "method_type" = some v) (hvf : v.falsy = false)
    (hbad : jlookup ekvs "value" = none
      ∨ (∃ v2, jlookup ekvs "value" = some v2 ∧ v2.falsy = true)) :
    validateEntries (.obj ekvs :: rest) idx
      = .fail s!"Contact method {idx + 1}: missing value" := by
  simp only [validateEntries]
  rw [hmt]
  simp only [hvf, Bool.false_eq_true, if_false]
  rcases hbad with h | ⟨v2, hv2, hv2f⟩
  · rw [h]
  · rw [hv2]
    simp [hv2f]

theorem json_obj_falsy_false (kvs : List (String × Json)) (hne : kvs ≠ []) :
    (Json.obj kvs).falsy = false := by
  cases kvs with
  | nil => exact absurd rfl hne
  | cons a l => rfl

theorem contactListPost_valfail (db : DB) (kvs : List (String × Json)) (nv : Json)
    (entries : List Json) (msg : String)
    (hne : kvs ≠ [])
    (hn : jlookup kvs "name" = some nv) (hnf : nv.falsy = false)
    (hcm : jlookup kvs "contact_methods" = some (.arr entries))
    (hene : entries ≠ [])
    (hval : validateEntries entries 0 = .fail msg) :
    contactListPost db (some (.obj kvs)) = (errResp 400 msg, db) := by
  unfold contactListPost
  dsimp only
  rw [json_obj_falsy_false kvs hne]
  simp only [Bool.false_eq_true, if_false]
  rw [hn]
  simp only [hnf, Bool.false_eq_true, if_false]
  rw [hcm]
  simp only [Option.getD_some]
  have hafal : (Json.arr entries).falsy = false := by
    cases entries with
    | nil => exact absurd rfl hene
    | cons a l => rfl
  rw [hafal]
  simp only [Bool.false_eq_true, if_false]
  rw [hval]

/-- Claim C3: contact creation fails with 400 and an `error` field — leaving
the store unchanged — when the name is missing or falsy (empty), when the
`contact_methods` list is missing or empty, and when an entry lacks a
present, non-empty `method_type` (checked first) or `value`; in the entry
case the message identifies the offending entry by its 1-based index, the
first bad entry winning. -/
theorem c3_create_validation (db : DB) (kvs : List (String × Json)) (hne : kvs ≠ []) :
    ((jlookup kvs "name" = none ∨ (∃ v, jlookup kvs "name" = some v ∧ v.falsy = true)) →
        contactListPost db (some (.obj kvs))
          = (errResp 400 "Missing required field: name", db))
    ∧ (∀ nv, jlookup kvs "name" = some nv → nv.falsy = false →
        ((jlookup kvs "contact_methods").getD (.arr [])).falsy = true →
        contactListPost db (some (.obj kvs))
          = (errResp 400 "At least one contact method is required", db))
    ∧ (∀ nv pre ekvs rest, jlookup kvs "name" = some nv → nv.falsy = false →
        jlookup kvs "contact_methods" = some (.arr (pre ++ .obj ekvs :: rest)) →
        (∀ x ∈ pre, entryOk x = true) →
        (jlookup ekvs "method_type" = none
          ∨ (∃ v, jlookup ekvs "method_type" = some v ∧ v.falsy = true)) →
        contactListPost db (some (.obj kvs))
          = (errResp 400 s!"Contact method {pre.length + 1}: missing method_type", db))
    ∧ (∀ nv pre ekvs rest v, jlookup kvs "name" = some nv → nv.falsy = false →
        jlookup kvs "contact_methods" = some (.arr (pre ++ .obj ekvs :: rest)) →
        (∀ x ∈ pre, entryOk x = true) →
        jlookup ekvs "method_type" = some v → v.falsy = false →
        (jlookup ekvs "value" = none
          ∨ (∃ v2, jlookup ekvs "value" = some v2 ∧ v2.falsy = true)) →
        contactListPost db (some (.obj kvs))
          = (errResp 400 s!"Contact method {pre.length + 1}: missing value", db)) := by
  refine ⟨?_, ?_, ?_, ?_⟩
  · intro hname
    unfold contactListPost
    dsimp only
    rw [json_obj_falsy_false kvs hne]
    simp only [Bool.false_eq_true, if_false]
    rcases hname with h | ⟨v, hv, hvf⟩
    · rw [h]
    · rw [hv]
      simp only [hvf, if_true]
  · intro nv hn hnf hfal
    unfold contactListPost
    dsimp only
    rw [json_obj_falsy_false kvs hne]
    simp only [Bool.false_eq_true, if_false]
    rw [hn]
    simp only [hnf, Bool.false_eq_true, if_false]
    rw [hfal]
    simp
  · intro nv pre ekvs rest hn hnf hcm hpre hbad
    have hval : validateEntries (pre ++ .obj ekvs :: rest) 0
        = .fail s!"Contact method {pre.length + 1}: missing method_type" := by
      rw [validateEntries_append_ok pre (.obj ekvs :: rest) 0 hpre, Nat.zero_add]
      exact validateEntries_head_bad_mt ekvs rest pre.length hbad
    exact contactListPost_valfail db kvs nv _ _ hne hn hnf hcm (by simp) hval
  · intro nv pre ekvs rest v hn hnf hcm hpre hmt hvf hbad
    have hval : validateEntries (pre ++ .obj ekvs :: rest) 0
        = .fail s!"Contact method {pre.length + 1}: missing value" := by
      rw [validateEntries_append_ok pre (.obj ekvs :: rest) 0 hpre, Nat.zero_add]
      exact validateEntries_head_bad_val ekvs rest pre.length v hmt hvf hbad
    exact contactListPost_valfail db kvs nv _ _ hne hn hnf hcm (by simp) hval

/-- Witness for C3: a creation request whose single method entry has a
`method_type` but no `value` fails naming entry 1, with the store unchanged. -/
theorem c3_create_validation_witness :
    ([("name", Json.str "Bob"),
      ("contact_methods", Json.arr [Json.obj [("method_type", Json.str "phone")]])]
        ≠ ([] : List (String × Json)))
    ∧ contactListPost ⟨[], [], 1, 1⟩
        (some (.obj [("name", Json.str "Bob"),
          ("contact_methods", Json.arr [Json.obj [("method_type", Json.str "phone")]])]))
      = (errResp 400 "Contact method 1: missing value", ⟨[], [], 1, 1⟩) :=
  ⟨List.cons_ne_nil _ _,
    (c3_create_validation ⟨[], [], 1, 1⟩
        [("name", Json.str "Bob"),
         ("contact_methods", Json.arr [Json.obj [("method_type", Json.str "phone")]])]
        (List.cons_ne_nil _ _)).2.2.2
      (Json.str "Bob") [] [("method_type", Json.str "phone")] [] (Json.str "phone")
      rfl rfl rfl (fun x hx => absurd hx (List.not_mem_nil x)) rfl rfl (Or.inl rfl)⟩

/-! ### Batch method creation (claims C5 and C6) -/

/-- The stored-field triple of a method row (identity and flag aside). -/
def mTriple (m : ContactMethod) : String × String × String :=
  (m.method_type, m.label, m.value)

/-- The stored-field triple of a typed payload. -/
def iTriple (i : MethodIn) : String × String × String :=
  (i.method_type, i.label, i.value)

theorem demoteOne_of_contact_ne (m x : ContactMethod) (h : x.contactId ≠ m.contactId) :
    demoteOne m x = x := by
  unfold demoteOne
  rw [if_neg]
  intro hcon
  simp only [Bool.and_eq_true, beq_iff_eq] at hcon
  exact h hcon.1.1.1

theorem demoteOne_mTriple (m x : ContactMethod) : mTriple (demoteOne m x) = mTriple x := by
  unfold demoteOne mTriple; split <;> rfl

theorem map_demoteOne_of_all_ne (m : ContactMethod) (l : List ContactMethod)
    (h : ∀ x ∈ l, x.contactId ≠ m.contactId) : l.map (demoteOne m) = l := by
  induction l with
  | nil => rfl
  | cons x t ih =>
    rw [List.map_cons, demoteOne_of_contact_ne m x (h x (List.mem_cons_self x t)),
        ih (fun y hy => h y (List.mem_cons_of_mem x hy))]

theorem any_id_eq_false {l : List ContactMethod} {n : Nat} (h : ∀ x ∈ l, x.id < n) :
    l.any (fun x => x.id == n) = false := by
  rw [List.any_eq_false]
  intro x hx
  simp only [beq_iff_eq]
  exact Nat.ne_of_lt (h x hx)

theorem createMethod_step (cs : List Contact) (orig bat : List ContactMethod)
    (ncid nid cid : Nat) (i : MethodIn)
    (horig : ∀ m ∈ orig, m.contactId ≠ cid)
    (hids : ∀ m ∈ orig ++ bat, m.id < nid) :
    createMethod ⟨cs, orig ++ bat, ncid, nid⟩ cid i.method_type i.label i.value i.is_primary
      = ⟨cs, orig ++ ((if i.is_primary then
            bat.map (demoteOne ⟨nid, cid, i.method_type, i.label, i.value, i.is_primary⟩)
          else bat) ++ [⟨nid, cid, i.method_type, i.label, i.value, i.is_primary⟩]),
          ncid, nid + 1⟩ := by
  have horig' : ∀ x ∈ orig,
      x.contactId ≠ (⟨nid, cid, i.method_type, i.label, i.value, i.is_primary⟩ :
        ContactMethod).contactId := horig
  unfold createMethod methodSave demote
  dsimp only
  by_cases hp : i.is_primary = true
  · rw [if_pos hp, if_pos hp]
    rw [List.map_append, map_demoteOne_of_all_ne _ orig horig']
    rw [if_neg (by
      rw [any_id_eq_false]
      · simp
      · intro x hx
        rcases List.mem_append.mp hx with h | h
        · exact hids x (List.mem_append.mpr (Or.inl h))
        · rcases List.mem_map.mp h with ⟨y, hy, rfl⟩
          rw [demoteOne_id]
          exact hids y (List.mem_append.mpr (Or.inr hy)))]
    rw [List.append_assoc]
  · rw [if_neg hp, if_neg hp]
    rw [if_neg (by
      rw [any_id_eq_false]
      · simp
      · exact hids)]
    rw [List.append_assoc]

theorem map_id_if_demote (m0 : ContactMethod) (bat : List ContactMethod) (b : Bool) :
    ((if b then bat.map (demoteOne m0) else bat).map (fun x => x.id))
      = bat.map (fun x => x.id) := by
  split
  · rw [List.map_map]
    exact List.map_congr_left (fun x _ => demoteOne_id m0 x)
  · rfl

theorem map_mTriple_if_demote (m0 : ContactMethod) (bat : List ContactMethod) (b : Bool) :
    ((if b then bat.map (demoteOne m0) else bat).map mTriple) = bat.map mTriple := by
  split
  · rw [List.map_map]
    exact List.map_congr_left (fun x _ => demoteOne_mTriple m0 x)
  · rfl

theorem contactId_if_demote (m0 : ContactMethod) (bat : List ContactMethod) (b : Bool)
    (c : Nat) (h : ∀ y ∈ bat, y.contactId = c) :
    ∀ m ∈ (if b then bat.map (demoteOne m0) else bat), m.contactId = c := by
  split
  · intro m hm
    rcases List.mem_map.mp hm with ⟨y, hy, rfl⟩
    rw [demoteOne_contactId]
    exact h y hy
  · exact h

theorem id_lt_if_demote (m0 : ContactMethod) (bat : List ContactMethod) (b : Bool)
    (n : Nat) (h : ∀ y ∈ bat, y.id < n) :
    ∀ m ∈ (if b then bat.map (demoteOne m0) else bat), m.id < n := by
  split
  · intro m hm
    rcases List.mem_map.mp hm with ⟨y, hy, rfl⟩
    rw [demoteOne_id]
    exact h y hy
  · exact h

theorem createMethods_batch (cid : Nat) :
    ∀ (ins : List MethodIn) (cs : List Contact) (orig bat : List ContactMethod)
      (ncid nid : Nat),
      (∀ m ∈ orig, m.contactId ≠ cid) →
      (∀ m ∈ bat, m.contactId = cid) →
      (∀ m ∈ orig, m.id < nid) →
      (∀ m ∈ bat, m.id < nid) →
      ∃ bat',
        createMethods ⟨cs, orig ++ bat, ncid, nid⟩ cid ins
          = ⟨cs, orig ++ bat', ncid, nid + ins.length⟩
        ∧ bat'.map mTriple = bat.map mTriple ++ ins.map iTriple
        ∧ (∀ m ∈ bat', m.contactId = cid)
        ∧ (∀ m ∈ bat', m.id < nid + ins.length)
        ∧ (∀ m ∈ bat', m.id ∈ bat.map (fun x => x.id) ∨ nid ≤ m.id) := by
  intro ins
  induction ins with
  | nil =>
    intro cs orig bat ncid nid horig hbat hoid hbid
    exact ⟨bat, by simp [createMethods], by simp, hbat, by simpa using hbid,
      fun m hm => Or.inl (List.mem_map_of_mem (fun x => x.id) hm)⟩
  | cons i ins ih =>
    intro cs orig bat ncid nid horig hbat hoid hbid
    have hstep := createMethod_step cs orig bat ncid nid cid i horig (by
      intro m hm
      rcases List.mem_append.mp hm with h | h
      exacts [hoid m h, hbid m h])
    set m0 : ContactMethod := ⟨nid, cid, i.method_type, i.label, i.value, i.is_primary⟩
      with hm0
    set bat1 : List ContactMethod :=
      (if i.is_primary then bat.map (demoteOne m0) else bat) ++ [m0] with hbat1
    have hrec : createMethods ⟨cs, orig ++ bat, ncid, nid⟩ cid (i :: ins)
        = createMethods ⟨cs, orig ++ bat1, ncid, nid + 1⟩ cid ins := by
      show createMethods (createMethod ⟨cs, orig ++ bat, ncid, nid⟩ cid
          i.method_type i.label i.value i.is_primary) cid ins = _
      rw [hstep]
    have hbat1cid : ∀ m ∈ bat1, m.contactId = cid := by
      intro m hm
      rcases List.mem_append.mp hm with h | h
      · exact contactId_if_demote m0 bat i.is_primary cid hbat m h
      · rw [List.mem_singleton] at h
        rw [h]
    have hbat1id : ∀ m ∈ bat1, m.id < nid + 1 := by
      intro m hm
      rcases List.mem_append.mp hm with h | h
      · exact id_lt_if_demote m0 bat i.is_primary (nid + 1)
          (fun y hy => Nat.lt_succ_of_lt (hbid y hy)) m h
      · rw [List.mem_singleton] at h
        rw [h]
        exact Nat.lt_succ_self nid
    obtain ⟨bat', he, ht, hcinv, hlt, hmem⟩ :=
      ih cs orig bat1 ncid (nid + 1) horig hbat1cid
        (fun m hm => Nat.lt_succ_of_lt (hoid m hm)) hbat1id
    have hb1t : bat1.map mTriple = bat.map mTriple ++ [iTriple i] := by
      rw [hbat1, List.map_append, map_mTriple_if_demote]
      rfl
    refine ⟨bat', ?_, ?_, hcinv, ?_, ?_⟩
    · rw [hrec, he]
      have : nid + 1 + ins.length = nid + (i :: ins).length := by
        simp only [List.length_cons]; omega
      rw [this]
    · rw [ht, hb1t]
      simp [List.append_assoc]
    · intro m hm
      have := hlt m hm
      simp only [List.length_cons]
      omega
    · intro m hm
      rcases hmem m hm with h | h
      · rw [hbat1, List.map_append, map_id_if_demote] at h
        rcases List.mem_append.mp h with h | h
        · exact Or.inl h
        · right
          simp only [List.map_cons, List.map_nil, List.mem_singleton] at h
          exact le_of_eq (show nid = m.id from h.symm)
      · right
        omega

theorem createMethodsJson_of_extract :
    ∀ (entries : List Json) (ins : List MethodIn), entriesExtract entries = some ins →
      ∀ (db : DB) (cid : Nat),
        createMethodsJson db cid entries = .ok (createMethods db cid ins) := by
  intro entries
  induction entries with
  | nil =>
    intro ins h db cid
    have : ins = [] := by
      rw [show entriesExtract [] = some [] from rfl] at h
      exact (Option.some_inj.mp h).symm
    rw [this]
    rfl
  | cons e rest ih =>
    intro ins h db cid
    unfold entriesExtract at h
    cases hx : extractEntry e with
    | none => rw [hx] at h; cases h
    | some i =>
      rw [hx] at h
      cases hr : entriesExtract rest with
      | none => rw [hr] at h; cases h
      | some is =>
        rw [hr] at h
        have hins : ins = i :: is := (Option.some_inj.mp h).symm
        rw [hins]
        show createMethodsJson db cid (e :: rest) = _
        unfold createMethodsJson
        rw [hx]
        exact ih is hr _ cid

theorem bne_filter_all {cid : Nat} {l : List ContactMethod}
    (h : ∀ m ∈ l, m.contactId ≠ cid) :
    l.filter (fun m => m.contactId != cid) = l := by
  rw [List.filter_eq_self]
  intro m hm
  simpa using h m hm

theorem bne_filter_nil {cid : Nat} {l : List ContactMethod}
    (h : ∀ m ∈ l, m.contactId = cid) :
    l.filter (fun m => m.contactId != cid) = [] := by
  rw [List.filter_eq_nil_iff]
  intro m hm
  simpa using h m hm

theorem beq_filter_all {cid : Nat} {l : List ContactMethod}
    (h : ∀ m ∈ l, m.contactId = cid) :
    l.filter (fun m => m.contactId == cid) = l := by
  rw [List.filter_eq_self]
  intro m hm
  simpa using h m hm

theorem beq_filter_nil {cid : Nat} {l : List ContactMethod}
    (h : ∀ m ∈ l, m.contactId ≠ cid) :
    l.filter (fun m => m.contactId == cid) = [] := by
  rw [List.filter_eq_nil_iff]
  intro m hm
  simpa using h m hm

/-- Claim C5: a PUT on an existing contact whose body has no
`contact_methods` key leaves the stored methods list exactly as it was; if
the body has a `contact_methods` array, every existing method of the contact
is deleted and the supplied entries are created in their place — other
contacts' methods are untouched, the contact's new methods carry exactly the
supplied `(method_type, label, value)` triples in order, and every new
method has a fresh identifier (so `contact_methods: []` clears all methods
and identifiers are never preserved). -/
theorem c5_put_methods_frame (db : DB) (cid : Nat) (c : Contact)
    (kvs : List (String × Json))
    (hfind : findContact db cid = some c)
    (hwf : ∀ m ∈ db.methods, m.id < db.nextMethodId)
    (hname : jlookup kvs "name" = none ∨ ∃ s, jlookup kvs "name" = some (.str s))
    (hbm : jlookup kvs "bookmarked" = none ∨ ∃ b, jlookup kvs "bookmarked" = some (.bool b)) :
    (jlookup kvs "contact_methods" = none →
        ((contactPut db cid (some (.obj kvs))).2).methods = db.methods)
    ∧ (∀ entries ins, jlookup kvs "contact_methods" = some (.arr entries) →
        entriesExtract entries = some ins →
        (((contactPut db cid (some (.obj kvs))).2).methods.filter
            (fun m => m.contactId != cid))
          = db.methods.filter (fun m => m.contactId != cid)
        ∧ ((((contactPut db cid (some (.obj kvs))).2).methods.filter
            (fun m => m.contactId == cid)).map mTriple) = ins.map iTriple
        ∧ (∀ m ∈ ((contactPut db cid (some (.obj kvs))).2).methods,
            m.contactId = cid → db.nextMethodId ≤ m.id)) := by
  constructor
  · intro hcm
    unfold contactPut
    rw [hfind]
    dsimp only
    by_cases hf : (Json.obj kvs).falsy = true
    · rw [if_pos hf]
    · rw [if_neg hf]
      rcases hname with hn | ⟨s, hn⟩ <;> rw [hn] <;>
        rcases hbm with hb | ⟨b, hb⟩ <;> rw [hb] <;>
          dsimp only <;> rw [hcm]
      all_goals rfl
  · intro entries ins hcm hex
    have hne : kvs ≠ [] := by
      intro hcon
      rw [hcon] at hcm
      cases hcm
    have hf : (Json.obj kvs).falsy = false := json_obj_falsy_false kvs hne
    have horig : ∀ m ∈ db.methods.filter (fun m => m.contactId != cid),
        m.contactId ≠ cid := by
      intro m hm
      have := (List.mem_filter.mp hm).2
      simpa using this
    have hoid : ∀ m ∈ db.methods.filter (fun m => m.contactId != cid),
        m.id < db.nextMethodId :=
      fun m hm => hwf m (List.mem_filter.mp hm).1
    obtain ⟨bat', he, ht, hcinv, hlt, hmem⟩ :=
      createMethods_batch cid ins db.contacts
        (db.methods.filter (fun m => m.contactId != cid)) []
        db.nextContactId db.nextMethodId horig (by intro m hm; cases hm)
        hoid (by intro m hm; cases hm)
    rw [List.append_nil] at he
    have hres : ((contactPut db cid (some (.obj kvs))).2).methods
        = db.methods.filter (fun m => m.contactId != cid) ++ bat' := by
      unfold contactPut
      rw [hfind]
      dsimp only
      rw [hf]
      simp only [Bool.false_eq_true, if_false]
      rcases hname with hn | ⟨s, hn⟩ <;> rw [hn] <;>
        rcases hbm with hb | ⟨b, hb⟩ <;> rw [hb] <;>
          dsimp only <;> rw [hcm] <;> dsimp only <;>
            rw [createMethodsJson_of_extract entries ins hex _ cid] <;>
              dsimp only <;> rw [he] <;> try rfl
    refine ⟨?_, ?_, ?_⟩
    · rw [hres, List.filter_append,
        bne_filter_all horig, bne_filter_nil hcinv, List.append_nil]
    · rw [hres, List.filter_append, beq_filter_nil horig, beq_filter_all hcinv,
        List.nil_append, ht]
      rfl
    · intro m hm hmc
      rw [hres] at hm
      rcases List.mem_append.mp hm with h | h
      · exact absurd hmc (horig m h)
      · rcases hmem m h with h2 | h2
        · cases h2
        · exact h2

/-- The concrete store used by the C5 witness. -/
def c5wOld : DB := ⟨[⟨1, "A", false⟩], [⟨1, 1, "phone", "", "old", false⟩], 2, 2⟩

/-- The concrete PUT body used by the C5 witness. -/
def c5wBody : Json :=
  .obj [("contact_methods",
    Json.arr [Json.obj [("method_type", Json.str "email"), ("value", Json.str "a@x")]])]

/-- The store after the C5 witness PUT. -/
def c5wNew : DB := (contactPut c5wOld 1 (some c5wBody)).2

/-- Witness for C5: replacing one phone method with one email method on a
concrete store; the replacement carries the supplied fields and the old
method identifier is gone. -/
theorem c5_put_methods_frame_witness :
    (findContact c5wOld 1 = some ⟨1, "A", false⟩
      ∧ (∀ m ∈ c5wOld.methods, m.id < 2)
      ∧ entriesExtract [Json.obj [("method_type", Json.str "email"), ("value", Json.str "a@x")]]
          = some [⟨"email", "", "a@x", false⟩])
    ∧ (c5wNew.methods.filter (fun m => m.contactId != 1)
          = c5wOld.methods.filter (fun m => m.contactId != 1)
      ∧ (c5wNew.methods.filter (fun m => m.contactId == 1)).map mTriple
          = [("email", "", "a@x")]
      ∧ (∀ m ∈ c5wNew.methods, m.contactId = 1 → 2 ≤ m.id)) :=
  ⟨⟨rfl, by decide, rfl⟩,
    (c5_put_methods_frame c5wOld 1 ⟨1, "A", false⟩
        [("contact_methods",
          Json.arr [Json.obj [("method_type", Json.str "email"), ("value", Json.str "a@x")]])]
        rfl (by decide) (Or.inl rfl) (Or.inl rfl)).2
      [Json.obj [("method_type", Json.str "email"), ("value", Json.str "a@x")]]
      [⟨"email", "", "a@x", false⟩] rfl rfl⟩

/-! ### Bulk import replacement semantics (claim C6) -/

/-- Claim C6: during bulk import, a row whose (stripped) Name matches exactly
one existing contact overwrites that contact's bookmark flag with the row's
case-insensitively parsed value (default No) and deletes every existing
method of the contact before adding the row's decoded methods — so
re-importing replaces, never appends; methods of other contacts are
untouched and every re-added method has a fresh identifier. A row whose Name
matches no stored contact creates a new contact carrying the parsed flag and
the row's methods. -/
theorem c6_import_replaces (db : DB) (row : Row)
    (hwf : ∀ m ∈ db.methods, m.id < db.nextMethodId)
    (hnm1 : (pyStrip row.name.data).asString ≠ "")
    (hnm2 : (pyStrip row.name.data).asString ≠ "nan") :
    (∀ c, db.contacts.filter (fun x => x.name == (pyStrip row.name.data).asString) = [c] →
      ∃ db', processRow db row = .imported db'
        ∧ db'.contacts = db.contacts.map (fun x =>
            if x.id == c.id then { c with bookmarked := parseBookmarked row.bookmarked }
            else x)
        ∧ db'.methods.filter (fun m => m.contactId != c.id)
            = db.methods.filter (fun m => m.contactId != c.id)
        ∧ (db'.methods.filter (fun m => m.contactId == c.id)).map mTriple
            = (rowMethodIns row).map iTriple
        ∧ (∀ m ∈ db'.methods, m.contactId = c.id → db.nextMethodId ≤ m.id))
    ∧ (db.contacts.filter (fun x => x.name == (pyStrip row.name.data).asString) = [] →
      (∀ m ∈ db.methods, m.contactId ≠ db.nextContactId) →
      ∃ db', processRow db row = .imported db'
        ∧ db'.contacts = db.contacts ++
            [⟨db.nextContactId, (pyStrip row.name.data).asString,
              parseBookmarked row.bookmarked⟩]
        ∧ (db'.methods.filter (fun m => m.contactId == db.nextContactId)).map mTriple
            = (rowMethodIns row).map iTriple
        ∧ db'.methods.filter (fun m => m.contactId != db.nextContactId) = db.methods) := by
  have hcond : ¬((decide ((pyStrip row.name.data).asString = "")
      || decide ((pyStrip row.name.data).asString = "nan")) = true) := by
    simp [hnm1, hnm2]
  constructor
  · intro c hmatch
    have horig : ∀ m ∈ db.methods.filter (fun m => m.contactId != c.id),
        m.contactId ≠ c.id := by
      intro m hm
      simpa using (List.mem_filter.mp hm).2
    have hoid : ∀ m ∈ db.methods.filter (fun m => m.contactId != c.id),
        m.id < db.nextMethodId :=
      fun m hm => hwf m (List.mem_filter.mp hm).1
    obtain ⟨bat', he, ht, hcinv, hlt, hmem⟩ :=
      createMethods_batch c.id (rowMethodIns row)
        (db.contacts.map (fun x =>
          if x.id == c.id then { c with bookmarked := parseBookmarked row.bookmarked }
          else x))
        (db.methods.filter (fun m => m.contactId != c.id)) []
        db.nextContactId db.nextMethodId horig (by intro m hm; cases hm)
        hoid (by intro m hm; cases hm)
    rw [List.append_nil] at he
    refine ⟨⟨db.contacts.map (fun x =>
        if x.id == c.id then { c with bookmarked := parseBookmarked row.bookmarked } else x),
        db.methods.filter (fun m => m.contactId != c.id) ++ bat',
        db.nextContactId, db.nextMethodId + (rowMethodIns row).length⟩,
      ?_, rfl, ?_, ?_, ?_⟩
    · unfold processRow
      dsimp only
      rw [if_neg hcond, hmatch]
      dsimp only [saveContact]
      rw [he]
    · dsimp only
      rw [List.filter_append, bne_filter_all horig, bne_filter_nil hcinv, List.append_nil]
    · dsimp only
      rw [List.filter_append, beq_filter_nil horig, beq_filter_all hcinv,
        List.nil_append, ht]
      rfl
    · intro m hm hmc
      rcases List.mem_append.mp hm with h | h
      · exact absurd hmc (horig m h)
      · rcases hmem m h with h2 | h2
        · cases h2
        · exact h2
  · intro hmatch hfresh
    obtain ⟨bat', he, ht, hcinv, hlt, hmem⟩ :=
      createMethods_batch db.nextContactId (rowMethodIns row)
        (db.contacts ++ [⟨db.nextContactId, (pyStrip row.name.data).asString,
          parseBookmarked row.bookmarked⟩])
        db.methods [] (db.nextContactId + 1) db.nextMethodId hfresh
        (by intro m hm; cases hm) hwf (by intro m hm; cases hm)
    rw [List.append_nil] at he
    refine ⟨⟨db.contacts ++ [⟨db.nextContactId, (pyStrip row.name.data).asString,
        parseBookmarked row.bookmarked⟩],
        db.methods ++ bat',
        db.nextContactId + 1, db.nextMethodId + (rowMethodIns row).length⟩,
      ?_, rfl, ?_, ?_⟩
    · unfold processRow
      dsimp only
      rw [if_neg hcond, hmatch]
      dsimp only
      rw [he]
    · dsimp only
      rw [List.filter_append, beq_filter_nil hfresh, beq_filter_all hcinv,
        List.nil_append, ht]
      rfl
    · dsimp only
      rw [List.filter_append, bne_filter_all hfresh, bne_filter_nil hcinv, List.append_nil]

/-- Witness for C6: re-importing a row for the existing contact "Bob"
overwrites the bookmark flag and replaces the single old phone method with
the row's two decoded phone methods. -/
theorem c6_import_replaces_witness :
    ((∀ m ∈ (⟨[⟨1, "Bob", false⟩], [⟨1, 1, "phone", "", "old", false⟩], 2, 2⟩ : DB).methods,
        m.id < 2)
      ∧ (pyStrip ("Bob" : String).data).asString ≠ ""
      ∧ (⟨[⟨1, "Bob", false⟩], [⟨1, 1, "phone", "", "old", false⟩], 2, 2⟩ : DB).contacts.filter
          (fun x => x.name == (pyStrip ("Bob" : String).data).asString) = [⟨1, "Bob", false⟩])
    ∧ (∃ db', processRow ⟨[⟨1, "Bob", false⟩], [⟨1, 1, "phone", "", "old", false⟩], 2, 2⟩
          ⟨"Bob", some "Yes", some "555-1111 (Work) [Primary]; 555-2222", none, none, none⟩
        = .imported db'
      ∧ db'.contacts = [⟨1, "Bob", true⟩]
      ∧ db'.methods.filter (fun m => m.contactId != 1) = []
      ∧ (db'.methods.filter (fun m => m.contactId == 1)).map mTriple
          = [("phone", "Work", "555-1111"), ("phone", "", "555-2222")]
      ∧ (∀ m ∈ db'.methods, m.contactId = 1 → 2 ≤ m.id)) :=
  ⟨⟨by decide, by decide, by decide⟩,
    (c6_import_replaces ⟨[⟨1, "Bob", false⟩], [⟨1, 1, "phone", "", "old", false⟩], 2, 2⟩
        ⟨"Bob", some "Yes", some "555-1111 (Work) [Primary]; 555-2222", none, none, none⟩
        (by decide) (by decide) (by decide)).1
      ⟨1, "Bob", false⟩ (by decide)⟩

/-! ### Bulk import best-effort processing (claim C7) -/

/-- Lookup of a key in a response's JSON object body. -/
def bodyLookup (r : HttpResp) (k : String) : Option Json :=
  match r.body with
  | .obj kvs => jlookup kvs k
  | _ => none

/-- Claim C7: bulk import is best-effort row by row — a row whose stripped
Name is blank or the literal `nan` only increments the skipped count and
processing continues; a row raising an exception records an error message
keyed `Row (index + 2)` (header row plus 0-based indexing), increments the
skipped count, and processing continues; the final response carries the
imported and skipped counts and, exactly when any errors were collected, an
`errors` array holding at most the first 10 messages. -/
theorem c7_import_best_effort (db : DB) (row : Row) (rest : List Row) (idx : Nat)
    (acc : ImpAcc) :
    (((pyStrip row.name.data).asString = "" ∨ (pyStrip row.name.data).asString = "nan") →
        importLoop db (row :: rest) idx acc
          = importLoop db rest (idx + 1) { acc with skipped := acc.skipped + 1 })
    ∧ (∀ msg, processRow db row = .rowError msg →
        importLoop db (row :: rest) idx acc
          = importLoop db rest (idx + 1)
              { acc with skipped := acc.skipped + 1,
                         errors := acc.errors ++ [s!"Row {idx + 2}: {msg}"] })
    ∧ (∀ db2, processRow db row = .imported db2 →
        importLoop db (row :: rest) idx acc
          = importLoop db2 rest (idx + 1) { acc with imported := acc.imported + 1 })
    ∧ ((importResponse acc).status = 200
        ∧ bodyLookup (importResponse acc) "imported" = some (.num acc.imported)
        ∧ bodyLookup (importResponse acc) "skipped" = some (.num acc.skipped)
        ∧ (acc.errors = [] → bodyLookup (importResponse acc) "errors" = none)
        ∧ (acc.errors ≠ [] → bodyLookup (importResponse acc) "errors"
            = some (.arr ((acc.errors.take 10).map .str)))) := by
  refine ⟨?_, ?_, ?_, rfl, ?_, ?_, ?_, ?_⟩
  · intro hblank
    have hout : processRow db row = .blank := by
      unfold processRow
      rw [if_pos]
      rcases hblank with h | h <;> simp [h]
    simp only [importLoop, hout]
  · intro msg herr
    simp only [importLoop, herr]
  · intro db2 him
    simp only [importLoop, him]
  · unfold importResponse bodyLookup
    dsimp only
    split <;> rfl
  · unfold importResponse bodyLookup
    dsimp only
    split <;> rfl
  · intro hnil
    unfold importResponse bodyLookup
    dsimp only
    rw [show acc.errors.isEmpty = true from by rw [hnil]; rfl]
    rfl
  · intro hne
    unfold importResponse bodyLookup
    dsimp only
    rw [show acc.errors.isEmpty = false from by
      cases hl : acc.errors with
      | nil => exact absurd hl hne
      | cons a l => rfl]
    rfl

/-- Witness for C7: a blank-name row, an erroring row (two stored contacts
share the row's name, so `get_or_create` raises), and a non-empty error
list in the response. -/
theorem c7_import_best_effort_witness :
    ((pyStrip (" " : String).data).asString = ""
      ∧ processRow ⟨[⟨1, "X", false⟩, ⟨2, "X", true⟩], [], 3, 1⟩
          ⟨"X", none, none, none, none, none⟩
        = .rowError "get() returned more than one Contact")
    ∧ (importLoop ⟨[⟨1, "X", false⟩, ⟨2, "X", true⟩], [], 3, 1⟩
        [⟨" ", none, none, none, none, none⟩] 0 ⟨0, 0, []⟩
      = importLoop ⟨[⟨1, "X", false⟩, ⟨2, "X", true⟩], [], 3, 1⟩ [] 1 ⟨0, 1, []⟩
      ∧ importLoop ⟨[⟨1, "X", false⟩, ⟨2, "X", true⟩], [], 3, 1⟩
          [⟨"X", none, none, none, none, none⟩] 4 ⟨0, 0, []⟩
        = importLoop ⟨[⟨1, "X", false⟩, ⟨2, "X", true⟩], [], 3, 1⟩ [] 5
            ⟨0, 1, ["Row 6: get() returned more than one Contact"]⟩
      ∧ bodyLookup (importResponse ⟨2, 1, ["Row 6: boom"]⟩) "errors"
          = some (.arr [.str "Row 6: boom"])) :=
  ⟨⟨by decide, rfl⟩,
    (c7_import_best_effort ⟨[⟨1, "X", false⟩, ⟨2, "X", true⟩], [], 3, 1⟩
        ⟨" ", none, none, none, none, none⟩ [] 0 ⟨0, 0, []⟩).1 (Or.inl (by decide)),
    (c7_import_best_effort ⟨[⟨1, "X", false⟩, ⟨2, "X", true⟩], [], 3, 1⟩
        ⟨"X", none, none, none, none, none⟩ [] 4 ⟨0, 0, []⟩).2.1
      "get() returned more than one Contact" rfl,
    (c7_import_best_effort ⟨[⟨1, "X", false⟩, ⟨2, "X", true⟩], [], 3, 1⟩
        ⟨"X", none, none, none, none, none⟩ [] 0 ⟨2, 1, ["Row 6: boom"]⟩).2.2.2.2.2.2.2
      (List.cons_ne_nil _ _)⟩

/-! ### Cell codec round trip (claim C2) -/

/-- A character the cell codec treats as plain text (no separator, no
label/primary delimiters). -/
def safeChar (c : Char) : Bool :=
  !(c == ';' || c == '(' || c == ')' || c == '[' || c == ']')

/-- All characters plain. -/
def safeChars (s : List Char) : Bool := s.all safeChar

/-- No stripped whitespace at either end (vacuous for the empty list). -/
def goodEnds (s : List Char) : Bool :=
  !pySpace (s.headD 'x') && !pySpace (s.getLastD 'x')

/-- A method value the codec round-trips: non-empty, plain characters, no
edge whitespace, and not the literal text `nan` (which the importer treats
as an empty cell). -/
def SafeValue (v : List Char) : Bool :=
  !v.isEmpty && safeChars v && goodEnds v && !(v == "nan".data)

/-- A label the codec round-trips: plain characters, no edge whitespace. -/
def SafeLabel (l : List Char) : Bool := safeChars l && goodEnds l

theorem not_mem_of_safeChars {s : List Char} (h : safeChars s = true) {c : Char}
    (hc : safeChar c = false) : c ∉ s := by
  intro hmem
  have h2 := List.all_eq_true.mp h c hmem
  rw [hc] at h2
  cases h2

theorem contains_eq_false {s : List Char} {c : Char} (h : c ∉ s) :
    s.contains c = false := by simp [h]

theorem contains_eq_true {s : List Char} {c : Char} (h : c ∈ s) :
    s.contains c = true := by simp [h]

theorem isPrefixOf_append_self_list (l1 l2 : List Char) :
    l1.isPrefixOf (l1 ++ l2) = true := by
  simp [List.isPrefixOf_iff_prefix]

theorem containsSub_append_self (p : List Char) :
    ∀ xs : List Char, containsSub p (xs ++ p) = true := by
  intro xs
  induction xs with
  | nil =>
    rw [List.nil_append]
    cases p with
    | nil => rfl
    | cons c t =>
      simp only [containsSub]
      rw [show (c :: t).isPrefixOf (c :: t) = true from by
        simp [List.isPrefixOf_iff_prefix]]
      simp
  | cons x t ih =>
    rw [List.cons_append]
    simp only [containsSub]
    simp [ih]

theorem replaceAll_append_not_head (p r : List Char) (h : Char) (p' : List Char)
    (hp : p = h :: p') :
    ∀ (xs rest : List Char), h ∉ xs →
      replaceAll p r (xs ++ rest) = xs ++ replaceAll p r rest := by
  intro xs
  induction xs with
  | nil => intro rest _; simp
  | cons c t ih =>
    intro rest hmem
    rw [List.mem_cons, not_or] at hmem
    rw [List.cons_append]
    rw [replaceAll_cons_neg p r c (t ++ rest) (by
      rintro ⟨-, hpre⟩
      rw [hp, List.isPrefixOf_iff_prefix, List.cons_prefix_cons] at hpre
      exact hmem.1 hpre.1)]
    rw [ih rest hmem.2, List.cons_append]

theorem replaceAll_head_match (p r rest : List Char) (hp : p ≠ []) :
    replaceAll p r (p ++ rest) = r ++ replaceAll p r rest := by
  cases p with
  | nil => exact absurd rfl hp
  | cons h p' =>
    rw [List.cons_append]
    rw [replaceAll_cons_pos (h :: p') r h (p' ++ rest) hp (by
      rw [show h :: (p' ++ rest) = (h :: p') ++ rest from rfl]
      exact isPrefixOf_append_self_list (h :: p') rest)]
    congr 1
    rw [show (h :: p').length - 1 = p'.length from by simp]
    rw [List.drop_left]

theorem replaceAll_no_occurrence (p r : List Char) (h : Char) (p' xs : List Char)
    (hp : p = h :: p') (hmem : h ∉ xs) : replaceAll p r xs = xs := by
  have h2 := replaceAll_append_not_head p r h p' hp xs [] hmem
  rw [List.append_nil, replaceAll_nil, List.append_nil] at h2
  exact h2

theorem rfindIdx_eq_none {c : Char} : ∀ {s : List Char}, c ∉ s → rfindIdx c s = none := by
  intro s
  induction s with
  | nil => intro _; rfl
  | cons x t ih =>
    intro h
    rw [List.mem_cons, not_or] at h
    show (match rfindIdx c t with
      | some i => some (i + 1)
      | none => if x = c then some 0 else none) = none
    rw [ih h.2, if_neg (fun hcon => h.1 hcon.symm)]

theorem rfindIdx_append_some (c : Char) :
    ∀ (xs ys : List Char) (i : Nat), rfindIdx c ys = some i →
      rfindIdx c (xs ++ ys) = some (xs.length + i) := by
  intro xs
  induction xs with
  | nil => intro ys i h; simpa using h
  | cons x t ih =>
    intro ys i h
    show (match rfindIdx c (t ++ ys) with
      | some j => some (j + 1)
      | none => if x = c then some 0 else none) = some ((x :: t).length + i)
    rw [ih ys i h]
    simp only [List.length_cons]
    rw [Option.some_inj]
    omega

theorem dropWhile_pySpace_eq_self {s : List Char} (h : (!pySpace (s.headD 'x')) = true) :
    s.dropWhile pySpace = s := by
  cases s with
  | nil => rfl
  | cons c t =>
    rw [List.dropWhile_cons, if_neg]
    rw [Bool.not_eq_true'] at h
    simp only [List.headD_cons] at h
    simp [h]

theorem reverse_dropWhile_eq_self {s : List Char}
    (h : (!pySpace (s.getLastD 'x')) = true) :
    s.reverse.dropWhile pySpace = s.reverse := by
  apply dropWhile_pySpace_eq_self
  rw [List.headD_eq_head?, List.head?_reverse, ← List.getLastD_eq_getLast?]
  exact h

theorem pyStrip_eq_self {s : List Char} (h : goodEnds s = true) : pyStrip s = s := by
  unfold goodEnds at h
  rw [Bool.and_eq_true] at h
  unfold pyStrip
  rw [dropWhile_pySpace_eq_self h.1, reverse_dropWhile_eq_self h.2, List.reverse_reverse]

theorem pyStrip_cons_space (s : List Char) : pyStrip (' ' :: s) = pyStrip s := by
  unfold pyStrip
  rw [List.dropWhile_cons, if_pos (by decide)]

theorem getLastD_nonempty_default {t : List Char} (h : t ≠ []) (a b : Char) :
    t.getLastD a = t.getLastD b := by
  cases t with
  | nil => exact absurd rfl h
  | cons u t' => rw [List.getLastD_cons, List.getLastD_cons]

theorem getLastD_append_right (s : List Char) {t : List Char} (h : t ≠ []) :
    ∀ d : Char, (s ++ t).getLastD d = t.getLastD d := by
  induction s with
  | nil => intro d; rfl
  | cons c s ih =>
    intro d
    rw [List.cons_append, List.getLastD_cons]
    rw [ih c]
    exact getLastD_nonempty_default h c d

theorem pyStrip_append_trailing_space {s : List Char} (hne : s ≠ [])
    (h : goodEnds s = true) : pyStrip (s ++ [' ']) = s := by
  unfold goodEnds at h
  rw [Bool.and_eq_true] at h
  unfold pyStrip
  have hl : (s ++ [' ']).dropWhile pySpace = s ++ [' '] := by
    cases s with
    | nil => exact absurd rfl hne
    | cons c t =>
      rw [List.cons_append, List.dropWhile_cons, if_neg]
      have h1 := h.1
      rw [Bool.not_eq_true'] at h1
      simp only [List.headD_cons] at h1
      simp [h1]
  rw [hl, List.reverse_append]
  rw [show ([' '] : List Char).reverse = [' '] from rfl, List.singleton_append]
  rw [List.dropWhile_cons, if_pos (by decide)]
  rw [reverse_dropWhile_eq_self h.2, List.reverse_reverse]

theorem append_ne_nil_of_ne_nil {v : List Char} (t : List Char) (h : v ≠ []) :
    v ++ t ≠ [] := by
  cases v with
  | nil => exact absurd rfl h
  | cons c s => simp

theorem headD_append_left {v : List Char} (t : List Char) (d : Char) (h : v ≠ []) :
    (v ++ t).headD d = v.headD d := by
  cases v with
  | nil => exact absurd rfl h
  | cons c s => rfl

theorem not_mem_append {c : Char} {a b : List Char} (ha : c ∉ a) (hb : c ∉ b) :
    c ∉ a ++ b := by
  intro h
  rcases List.mem_append.mp h with h | h
  exacts [ha h, hb h]

theorem safeValue_parts {v : List Char} (h : SafeValue v = true) :
    v ≠ [] ∧ safeChars v = true ∧ goodEnds v = true ∧ v ≠ "nan".data := by
  unfold SafeValue at h
  simp only [Bool.and_eq_true, Bool.not_eq_true'] at h
  refine ⟨?_, h.1.1.2, h.1.2, ?_⟩
  · intro hcon
    rw [hcon] at h
    simp at h
  · intro hcon
    rw [hcon] at h
    simp at h

theorem safeLabel_parts {l : List Char} (h : SafeLabel l = true) :
    safeChars l = true ∧ goodEnds l = true := by
  unfold SafeLabel at h
  rw [Bool.and_eq_true] at h
  exact h

/-- The bracket phase on a marker-suffixed segment: stripping every
`[Primary]` occurrence and trimming recovers the marker-free prefix. -/
theorem stripPrimary_suffix {w : List Char} (hw : '[' ∉ w) (hwne : w ≠ [])
    (hge : goodEnds w = true) :
    pyStrip (replaceAll primaryMarker [] ((w ++ [' ']) ++ primaryMarker)) = w := by
  have hp : primaryMarker = '[' :: "Primary]".data := rfl
  have hmem : '[' ∉ w ++ [' '] := not_mem_append hw (by decide)
  rw [replaceAll_append_not_head primaryMarker [] '[' "Primary]".data hp
    (w ++ [' ']) primaryMarker hmem]
  rw [show replaceAll primaryMarker [] primaryMarker
      = replaceAll primaryMarker [] (primaryMarker ++ []) from by rw [List.append_nil]]
  rw [replaceAll_head_match primaryMarker [] [] (by decide)]
  rw [replaceAll_nil, List.append_nil, List.append_nil]
  exact pyStrip_append_trailing_space hwne hge

/-- The label phase: on `v ++ " (" ++ l ++ ")"`, the last parenthesis pair
is found, the label between them is `l` and the trimmed remainder is `v`. -/
theorem parenExtract {v l : List Char}
    (hvne : v ≠ []) (_hvsafe : safeChars v = true) (hvge : goodEnds v = true)
    (hlsafe : safeChars l = true) (hlge : goodEnds l = true) :
    rfindIdx '(' (v ++ (' ' :: '(' :: (l ++ [')']))) = some (v.length + 1)
    ∧ rfindIdx ')' (v ++ (' ' :: '(' :: (l ++ [')']))) = some (v.length + (l.length + 2))
    ∧ pyStrip ((v ++ (' ' :: '(' :: (l ++ [')']))).take (v.length + 1)) = v
    ∧ pyStrip
        (((v ++ (' ' :: '(' :: (l ++ [')']))).drop (v.length + 2)).take
          (v.length + (l.length + 2) - (v.length + 1) - 1)) = l := by
  have hlpar_l : '(' ∉ l := not_mem_of_safeChars hlsafe (by decide)
  have hrpar_l : ')' ∉ l := not_mem_of_safeChars hlsafe (by decide)
  refine ⟨?_, ?_, ?_, ?_⟩
  · have hinner : rfindIdx '(' (l ++ [')']) = none :=
      rfindIdx_eq_none (not_mem_append hlpar_l (by decide))
    have h2 : rfindIdx '(' ('(' :: (l ++ [')'])) = some 0 := by
      show (match rfindIdx '(' (l ++ [')']) with
        | some i => some (i + 1)
        | none => if '(' = '(' then some 0 else none) = some 0
      rw [hinner, if_pos rfl]
    have h3 : rfindIdx '(' (' ' :: '(' :: (l ++ [')'])) = some 1 := by
      show (match rfindIdx '(' ('(' :: (l ++ [')'])) with
        | some i => some (i + 1)
        | none => if ' ' = '(' then some 0 else none) = some 1
      rw [h2]
    rw [rfindIdx_append_some '(' v (' ' :: '(' :: (l ++ [')'])) 1 h3]
  · have h1 : rfindIdx ')' ([')'] : List Char) = some 0 := rfl
    have h2 : rfindIdx ')' (l ++ [')']) = some l.length := by
      rw [rfindIdx_append_some ')' l [')'] 0 h1]
      simp
    have h3 : rfindIdx ')' ('(' :: (l ++ [')'])) = some (l.length + 1) := by
      show (match rfindIdx ')' (l ++ [')']) with
        | some i => some (i + 1)
        | none => if '(' = ')' then some 0 else none) = some (l.length + 1)
      rw [h2]
    have h4 : rfindIdx ')' (' ' :: '(' :: (l ++ [')'])) = some (l.length + 2) := by
      show (match rfindIdx ')' ('(' :: (l ++ [')'])) with
        | some i => some (i + 1)
        | none => if ' ' = ')' then some 0 else none) = some (l.length + 2)
      rw [h3]
    rw [rfindIdx_append_some ')' v (' ' :: '(' :: (l ++ [')'])) (l.length + 2) h4]
  · rw [show v ++ (' ' :: '(' :: (l ++ [')'])) = (v ++ [' ']) ++ ('(' :: (l ++ [')']))
      from by simp]
    rw [show v.length + 1 = (v ++ [' ']).length from by simp]
    rw [List.take_left]
    exact pyStrip_append_trailing_space hvne hvge
  · rw [show v ++ (' ' :: '(' :: (l ++ [')'])) = (v ++ [' ', '(']) ++ (l ++ [')'])
      from by simp]
    rw [show v.length + 2 = (v ++ [' ', '(']).length from by simp]
    rw [List.drop_left]
    rw [show v.length + (l.length + 2) - (v.length + 1) - 1 = l.length from by omega]
    rw [List.take_left]
    exact pyStrip_eq_self hlge

/-- The decode of one exported segment recovers the encoded value, label and
primary flag. -/
theorem decodeSeg_encodeSeg (v l : List Char) (p : Bool)
    (hv : SafeValue v = true) (hl : SafeLabel l = true) :
    decodeSeg (encodeSegChars v l p) = some (v, l, p) := by
  obtain ⟨hvne, hvsafe, hvge, hvnan⟩ := safeValue_parts hv
  obtain ⟨hlsafe, hlge⟩ := safeLabel_parts hl
  have hv_lb : '[' ∉ v := not_mem_of_safeChars hvsafe (by decide)
  have hv_lp : '(' ∉ v := not_mem_of_safeChars hvsafe (by decide)
  have hl_lb : '[' ∉ l := not_mem_of_safeChars hlsafe (by decide)
  by_cases hp : p = true <;> by_cases hle : l = []
  · -- primary, no label
    subst hp hle
    have hS : encodeSegChars v [] true = (v ++ [' ']) ++ primaryMarker := by
      unfold encodeSegChars
      simp
    rw [hS]
    unfold decodeSeg
    rw [if_neg (append_ne_nil_of_ne_nil primaryMarker
      (append_ne_nil_of_ne_nil [' '] hvne))]
    dsimp only
    rw [contains_eq_true (show '[' ∈ (v ++ [' ']) ++ primaryMarker from
      List.mem_append.mpr (Or.inr (by decide)))]
    rw [contains_eq_true (show ']' ∈ (v ++ [' ']) ++ primaryMarker from
      List.mem_append.mpr (Or.inr (by decide)))]
    rw [containsSub_append_self primaryMarker (v ++ [' '])]
    simp only [Bool.and_self, if_true]
    rw [stripPrimary_suffix hv_lb hvne hvge]
    rw [contains_eq_false hv_lp]
    simp only [Bool.false_and, Bool.false_eq_true, if_false]
    rw [if_neg hvne]
  · -- primary, with label
    subst hp
    have hS : encodeSegChars v l true
        = ((v ++ (' ' :: '(' :: (l ++ [')']))) ++ [' ']) ++ primaryMarker := by
      unfold encodeSegChars
      rw [if_neg hle, if_pos rfl]
      simp
    rw [hS]
    have hWne : v ++ (' ' :: '(' :: (l ++ [')'])) ≠ [] :=
      append_ne_nil_of_ne_nil _ hvne
    have hWlb : '[' ∉ v ++ (' ' :: '(' :: (l ++ [')'])) := by
      refine not_mem_append hv_lb ?_
      intro hmem
      simp only [List.mem_cons, List.mem_append, List.mem_singleton] at hmem
      rcases hmem with h | h | h | h
      · exact absurd h (by decide)
      · exact absurd h (by decide)
      · exact hl_lb h
      · exact absurd h (by decide)
    have hWge : goodEnds (v ++ (' ' :: '(' :: (l ++ [')']))) = true := by
      unfold goodEnds
      rw [headD_append_left _ 'x' hvne]
      rw [getLastD_append_right v (by simp) 'x']
      rw [List.getLastD_cons, List.getLastD_cons]
      rw [getLastD_append_right l (by simp) '(']
      unfold goodEnds at hvge
      rw [Bool.and_eq_true] at hvge
      rw [hvge.1]
      decide
    unfold decodeSeg
    rw [if_neg (append_ne_nil_of_ne_nil primaryMarker
      (append_ne_nil_of_ne_nil [' '] hWne))]
    dsimp only
    rw [contains_eq_true (List.mem_append.mpr (Or.inr (show '[' ∈ primaryMarker by decide)))]
    rw [contains_eq_true (List.mem_append.mpr (Or.inr (show ']' ∈ primaryMarker by decide)))]
    rw [containsSub_append_self primaryMarker ((v ++ (' ' :: '(' :: (l ++ [')']))) ++ [' '])]
    simp only [Bool.and_self, if_true]
    rw [stripPrimary_suffix hWlb hWne hWge]
    obtain ⟨hst, hen, hval, hlab⟩ := parenExtract hvne hvsafe hvge hlsafe hlge
    rw [contains_eq_true (show '(' ∈ v ++ (' ' :: '(' :: (l ++ [')'])) from
      List.mem_append.mpr (Or.inr (by simp)))]
    rw [contains_eq_true (show ')' ∈ v ++ (' ' :: '(' :: (l ++ [')'])) from
      List.mem_append.mpr (Or.inr (by simp)))]
    simp only [Bool.and_self, if_true]
    rw [hst, hen]
    dsimp only
    rw [if_pos (show v.length + 1 < v.length + (l.length + 2) from by omega)]
    rw [hval, hlab]
    rw [if_neg hvne]
  · -- not primary, no label
    subst hle
    rw [Bool.not_eq_true] at hp
    subst hp
    have hS : encodeSegChars v [] false = v := by
      unfold encodeSegChars
      simp
    rw [hS]
    unfold decodeSeg
    rw [if_neg hvne]
    dsimp only
    rw [contains_eq_false hv_lb]
    simp only [Bool.false_and, Bool.false_eq_true, if_false]
    rw [contains_eq_false hv_lp]
    simp only [Bool.false_and, Bool.false_eq_true, if_false]
    rw [if_neg hvne]
  · -- not primary, with label
    rw [Bool.not_eq_true] at hp
    subst hp
    have hS : encodeSegChars v l false = v ++ (' ' :: '(' :: (l ++ [')'])) := by
      unfold encodeSegChars
      rw [if_neg hle]
      simp
    rw [hS]
    have hWlb : '[' ∉ v ++ (' ' :: '(' :: (l ++ [')'])) := by
      refine not_mem_append hv_lb ?_
      intro hmem
      simp only [List.mem_cons, List.mem_append, List.mem_singleton] at hmem
      rcases hmem with h | h | h | h
      · exact absurd h (by decide)
      · exact absurd h (by decide)
      · exact hl_lb h
      · exact absurd h (by decide)
    unfold decodeSeg
    rw [if_neg (append_ne_nil_of_ne_nil _ hvne)]
    dsimp only
    rw [contains_eq_false hWlb]
    simp only [Bool.false_and, Bool.false_eq_true, if_false]
    obtain ⟨hst, hen, hval, hlab⟩ := parenExtract hvne hvsafe hvge hlsafe hlge
    rw [contains_eq_true (show '(' ∈ v ++ (' ' :: '(' :: (l ++ [')'])) from
      List.mem_append.mpr (Or.inr (by simp)))]
    rw [contains_eq_true (show ')' ∈ v ++ (' ' :: '(' :: (l ++ [')'])) from
      List.mem_append.mpr (Or.inr (by simp)))]
    simp only [Bool.and_self, if_true]
    rw [hst, hen]
    dsimp only
    rw [if_pos (show v.length + 1 < v.length + (l.length + 2) from by omega)]
    rw [hval, hlab]
    rw [if_neg hvne]

theorem splitSemi_ne_nil (s : List Char) : splitSemi s ≠ [] := by
  cases s with
  | nil => exact List.cons_ne_nil _ _
  | cons c t =>
    show (match splitSemi t with
      | [] => [[]]
      | g :: gs => if c = ';' then [] :: g :: gs else (c :: g) :: gs) ≠ []
    cases splitSemi t with
    | nil => exact List.cons_ne_nil _ _
    | cons g gs =>
      dsimp only
      by_cases hc : c = ';'
      · rw [if_pos hc]; exact List.cons_ne_nil _ _
      · rw [if_neg hc]; exact List.cons_ne_nil _ _

theorem splitSemi_no_semi {s : List Char} (h : ';' ∉ s) : splitSemi s = [s] := by
  induction s with
  | nil => rfl
  | cons c t ih =>
    rw [List.mem_cons, not_or] at h
    show (match splitSemi t with
      | [] => [[]]
      | g :: gs => if c = ';' then [] :: g :: gs else (c :: g) :: gs) = [c :: t]
    rw [ih h.2]
    dsimp only
    rw [if_neg (fun hcon => h.1 hcon.symm)]

theorem splitSemi_append {a : List Char} (t : List Char) (h : ';' ∉ a) :
    splitSemi (a ++ ';' :: t) = a :: splitSemi t := by
  induction a with
  | nil =>
    show (match splitSemi t with
      | [] => [[]]
      | g :: gs => if ';' = ';' then [] :: g :: gs else (';' :: g) :: gs) = [] :: splitSemi t
    cases hsp : splitSemi t with
    | nil => exact absurd hsp (splitSemi_ne_nil t)
    | cons g gs =>
      dsimp only
      rw [if_pos rfl]
  | cons c a ih =>
    rw [List.mem_cons, not_or] at h
    rw [List.cons_append]
    show (match splitSemi (a ++ ';' :: t) with
      | [] => [[]]
      | g :: gs => if c = ';' then [] :: g :: gs else (c :: g) :: gs)
      = (c :: a) :: splitSemi t
    rw [ih h.2]
    dsimp only
    rw [if_neg (fun hcon => h.1 hcon.symm)]

theorem splitSemi_cons_space (x : List Char) :
    splitSemi (' ' :: x)
      = (' ' :: (splitSemi x).headD []) :: (splitSemi x).tail := by
  show (match splitSemi x with
    | [] => [[]]
    | g :: gs => if ' ' = ';' then [] :: g :: gs else (' ' :: g) :: gs)
    = (' ' :: (splitSemi x).headD []) :: (splitSemi x).tail
  cases hsp : splitSemi x with
  | nil => exact absurd hsp (splitSemi_ne_nil x)
  | cons g gs =>
    dsimp only
    rw [if_neg (by decide)]
    rfl

theorem interSemi_goodSeg :
    ∀ segs : List (List Char), segs ≠ [] →
      (∀ s ∈ segs, s ≠ [] ∧ ';' ∉ s ∧ goodEnds s = true) →
      interSemi segs ≠ [] ∧ goodEnds (interSemi segs) = true := by
  intro segs
  induction segs with
  | nil => intro h _; exact absurd rfl h
  | cons s segs' ih =>
    intro _ hall
    obtain ⟨hsne, -, hsge⟩ := hall s (List.mem_cons_self s segs')
    cases segs' with
    | nil => exact ⟨hsne, hsge⟩
    | cons s2 rest =>
      obtain ⟨hXne, hXge⟩ := ih (List.cons_ne_nil s2 rest)
        (fun x hx => hall x (List.mem_cons_of_mem s hx))
      constructor
      · show s ++ ';' :: ' ' :: interSemi (s2 :: rest) ≠ []
        cases s with
        | nil => exact List.cons_ne_nil _ _
        | cons c cs => exact List.cons_ne_nil _ _
      · show goodEnds (s ++ ';' :: ' ' :: interSemi (s2 :: rest)) = true
        unfold goodEnds
        rw [headD_append_left _ 'x' hsne]
        rw [getLastD_append_right s (List.cons_ne_nil _ _) 'x']
        rw [List.getLastD_cons, List.getLastD_cons]
        rw [getLastD_nonempty_default hXne ' ' 'x']
        unfold goodEnds at hsge hXge
        rw [Bool.and_eq_true] at hsge hXge
        rw [hsge.1, hXge.2]
        rfl

theorem splitSemi_interSemi :
    ∀ segs : List (List Char), segs ≠ [] →
      (∀ s ∈ segs, s ≠ [] ∧ ';' ∉ s ∧ goodEnds s = true) →
      (splitSemi (interSemi segs)).map pyStrip = segs := by
  intro segs
  induction segs with
  | nil => intro h _; exact absurd rfl h
  | cons s segs' ih =>
    intro _ hall
    obtain ⟨hsne, hssemi, hsge⟩ := hall s (List.mem_cons_self s segs')
    cases segs' with
    | nil =>
      show (splitSemi (interSemi [s])).map pyStrip = [s]
      rw [show interSemi [s] = s from rfl, splitSemi_no_semi hssemi]
      rw [List.map_cons, List.map_nil, pyStrip_eq_self hsge]
    | cons s2 rest =>
      have hrec := ih (List.cons_ne_nil s2 rest)
        (fun x hx => hall x (List.mem_cons_of_mem s hx))
      show (splitSemi (s ++ ';' :: (' ' :: interSemi (s2 :: rest)))).map pyStrip
        = s :: s2 :: rest
      rw [splitSemi_append (' ' :: interSemi (s2 :: rest)) hssemi]
      cases hsp : splitSemi (interSemi (s2 :: rest)) with
      | nil => exact absurd hsp (splitSemi_ne_nil _)
      | cons g gs =>
        rw [splitSemi_cons_space, hsp]
        rw [hsp] at hrec
        rw [List.map_cons] at hrec ⊢
        rw [List.headD_cons, List.tail_cons, List.map_cons]
        rw [pyStrip_eq_self hsge, pyStrip_cons_space]
        rw [hrec]

theorem ne_of_mem_not_mem {c : Char} {s t : List Char} (h1 : c ∈ s) (h2 : c ∉ t) :
    s ≠ t :=
  fun hcon => h2 (hcon ▸ h1)

theorem data_asString (s : String) : s.data.asString = s := by
  cases s
  rfl

theorem encodeSegChars_ne_nil (v l : List Char) (p : Bool) (hvne : v ≠ []) :
    encodeSegChars v l p ≠ [] := by
  unfold encodeSegChars
  exact append_ne_nil_of_ne_nil _ (append_ne_nil_of_ne_nil _ hvne)

theorem encodeSegChars_no_semi (v l : List Char) (p : Bool)
    (hvs : safeChars v = true) (hls : safeChars l = true) :
    ';' ∉ encodeSegChars v l p := by
  unfold encodeSegChars
  refine not_mem_append (not_mem_append (not_mem_of_safeChars hvs (by decide)) ?_) ?_
  · split
    · exact List.not_mem_nil ';'
    · intro hmem
      simp only [List.mem_cons, List.mem_append, List.mem_singleton] at hmem
      rcases hmem with hm | hm | hm | hm
      · exact absurd hm (by decide)
      · exact absurd hm (by decide)
      · exact not_mem_of_safeChars hls (by decide) hm
      · exact absurd hm (by decide)
  · split
    · exact by decide
    · exact List.not_mem_nil ';'

theorem encodeSegChars_goodEnds (v l : List Char) (p : Bool)
    (hvne : v ≠ []) (hvge : goodEnds v = true) :
    goodEnds (encodeSegChars v l p) = true := by
  unfold goodEnds at hvge
  rw [Bool.and_eq_true] at hvge
  unfold encodeSegChars goodEnds
  rw [headD_append_left _ 'x' (append_ne_nil_of_ne_nil _ hvne),
    headD_append_left _ 'x' hvne, hvge.1]
  rw [Bool.true_and]
  by_cases hp : p = true
  · rw [if_pos hp]
    rw [getLastD_append_right _ (List.cons_ne_nil _ _) 'x']
    decide
  · rw [if_neg hp, List.append_nil]
    by_cases hle : l = []
    · rw [if_pos hle, List.append_nil]
      exact hvge.2
    · rw [if_neg hle]
      rw [getLastD_append_right v (List.cons_ne_nil _ _) 'x']
      rw [List.getLastD_cons, List.getLastD_cons]
      rw [getLastD_append_right l (List.cons_ne_nil _ _) '(']
      decide

theorem encodeSegChars_ne_nan (v l : List Char) (p : Bool)
    (hvnan : v ≠ "nan".data) (_hvs : safeChars v = true) :
    encodeSegChars v l p ≠ "nan".data := by
  by_cases hp : p = true
  · refine ne_of_mem_not_mem (c := '[') ?_ (by decide)
    unfold encodeSegChars
    rw [if_pos hp]
    exact List.mem_append.mpr (Or.inr (by decide))
  · by_cases hle : l = []
    · rw [show encodeSegChars v l p = v from by
        unfold encodeSegChars
        rw [if_pos hle, if_neg hp, List.append_nil, List.append_nil]]
      exact hvnan
    · refine ne_of_mem_not_mem (c := '(') ?_ (by decide)
      unfold encodeSegChars
      rw [if_neg hle, if_neg hp, List.append_nil]
      exact List.mem_append.mpr (Or.inr (by simp))

theorem decodeCell_interSemi (segs : List (List Char)) (hne : segs ≠ [])
    (hall : ∀ s ∈ segs, s ≠ [] ∧ ';' ∉ s ∧ goodEnds s = true)
    (hnan : interSemi segs ≠ "nan".data) :
    decodeCell ((interSemi segs).asString)
      = segs.filterMap (fun seg => (decodeSeg seg).map
          (fun t => (t.1.asString, t.2.1.asString, t.2.2))) := by
  obtain ⟨hIne, hIge⟩ := interSemi_goodSeg segs hne hall
  unfold decodeCell
  rw [show ((interSemi segs).asString).data = interSemi segs from rfl]
  rw [pyStrip_eq_self hIge]
  rw [if_neg (by simp [hIne, hnan])]
  rw [splitSemi_interSemi segs hne hall]

theorem filterMap_decode_map (ms : List ContactMethod)
    (h : ∀ m ∈ ms, SafeValue m.value.data = true ∧ SafeLabel m.label.data = true) :
    (ms.map (fun m => encodeSegChars m.value.data m.label.data m.is_primary)).filterMap
        (fun seg => (decodeSeg seg).map (fun t => (t.1.asString, t.2.1.asString, t.2.2)))
      = ms.map (fun m => (m.value, m.label, m.is_primary)) := by
  induction ms with
  | nil => rfl
  | cons m rest ih =>
    obtain ⟨hv, hl⟩ := h m (List.mem_cons_self m rest)
    rw [List.map_cons, List.map_cons]
    rw [List.filterMap_cons]
    rw [show Option.map (fun t => (t.1.asString, t.2.1.asString, t.2.2))
        (decodeSeg (encodeSegChars m.value.data m.label.data m.is_primary))
        = some (m.value, m.label, m.is_primary) from by
      rw [decodeSeg_encodeSeg _ _ _ hv hl]
      dsimp only [Option.map]
      rw [data_asString, data_asString]]
    rw [ih (fun x hx => h x (List.mem_cons_of_mem m hx))]

/-- Claim C2 (amended): the export cell encoding (`value`, then `" (label)"`
when a label is present, then `" [Primary]"` when primary, segments joined
with `"; "`) is exactly inverted by the import cell decoding whenever every
value is non-empty, is not the literal text `nan`, and — together with every
label — contains no parenthesis, bracket, or semicolon and no leading or
trailing whitespace. -/
theorem c2_cell_roundtrip (ms : List ContactMethod)
    (h : ∀ m ∈ ms, SafeValue m.value.data = true ∧ SafeLabel m.label.data = true) :
    decodeCell (encodeCell ms) = ms.map (fun m => (m.value, m.label, m.is_primary)) := by
  cases ms with
  | nil => rfl
  | cons m0 rest =>
    have hallgood : ∀ s ∈ (m0 :: rest).map
        (fun m => encodeSegChars m.value.data m.label.data m.is_primary),
        s ≠ [] ∧ ';' ∉ s ∧ goodEnds s = true := by
      intro s hs
      rcases List.mem_map.mp hs with ⟨m, hm, rfl⟩
      obtain ⟨hv, hl⟩ := h m hm
      obtain ⟨hvne, hvsafe, hvge, hvnan⟩ := safeValue_parts hv
      obtain ⟨hlsafe, hlge⟩ := safeLabel_parts hl
      exact ⟨encodeSegChars_ne_nil _ _ _ hvne,
        encodeSegChars_no_semi _ _ _ hvsafe hlsafe,
        encodeSegChars_goodEnds _ _ _ hvne hvge⟩
    have hnan : interSemi ((m0 :: rest).map
        (fun m => encodeSegChars m.value.data m.label.data m.is_primary))
        ≠ "nan".data := by
      cases rest with
      | nil =>
        obtain ⟨hv, hl⟩ := h m0 (List.mem_cons_self m0 [])
        obtain ⟨hvne, hvsafe, hvge, hvnan⟩ := safeValue_parts hv
        exact encodeSegChars_ne_nan _ _ _ hvnan hvsafe
      | cons m1 rest' =>
        refine ne_of_mem_not_mem (c := ';') ?_ (by decide)
        rw [List.map_cons, List.map_cons]
        show ';' ∈ encodeSegChars m0.value.data m0.label.data m0.is_primary
          ++ ';' :: ' ' :: interSemi (encodeSegChars m1.value.data m1.label.data m1.is_primary
            :: rest'.map (fun m => encodeSegChars m.value.data m.label.data m.is_primary))
        exact List.mem_append.mpr (Or.inr (List.mem_cons_self _ _))
    unfold encodeCell
    rw [decodeCell_interSemi _ (by simp) hallgood hnan]
    exact filterMap_decode_map (m0 :: rest) h

/-- Counterexample to claim C2 as stated: the value `a;b` contains no
literal parentheses or brackets, yet the round trip fails — the importer
splits the exported cell at the semicolon into two methods. -/
theorem c2_counterexample :
    ('(' ∉ ("a;b" : String).data ∧ ')' ∉ ("a;b" : String).data
      ∧ '[' ∉ ("a;b" : String).data ∧ ']' ∉ ("a;b" : String).data)
    ∧ decodeCell (encodeCell [⟨1, 1, "phone", "", "a;b", false⟩])
        ≠ [("a;b", "", false)]
    ∧ decodeCell (encodeCell [⟨1, 1, "phone", "", "a;b", false⟩])
        = [("a", "", false), ("b", "", false)] :=
  ⟨⟨by decide, by decide, by decide, by decide⟩, by decide, by decide⟩

/-- Witness for C2 at the specification's own example: two phone methods
encode to the documented cell, and decoding that cell reproduces both
`(value, label, primary)` triples. -/
theorem c2_cell_roundtrip_witness :
    ((∀ m ∈ [(⟨1, 1, "phone", "Work", "555-1111", true⟩ : ContactMethod),
        ⟨2, 1, "phone", "", "555-2222", false⟩],
        SafeValue m.value.data = true ∧ SafeLabel m.label.data = true)
      ∧ exportCellFor ⟨[⟨1, "A", false⟩],
          [⟨1, 1, "phone", "Work", "555-1111", true⟩, ⟨2, 1, "phone", "", "555-2222", false⟩],
          2, 3⟩ 1 "phone" = "555-1111 (Work) [Primary]; 555-2222")
    ∧ decodeCell "555-1111 (Work) [Primary]; 555-2222"
        = [("555-1111", "Work", true), ("555-2222", "", false)] :=
  ⟨⟨by decide, by decide⟩, by
    have h2 := c2_cell_roundtrip
      [⟨1, 1, "phone", "Work", "555-1111", true⟩, ⟨2, 1, "phone", "", "555-2222", false⟩]
      (by decide)
    rw [show encodeCell
        [(⟨1, 1, "phone", "Work", "555-1111", true⟩ : ContactMethod),
         ⟨2, 1, "phone", "", "555-2222", false⟩]
        = ("555-1111 (Work) [Primary]; 555-2222" : String) from by decide] at h2
    exact h2⟩

end ContactsApp
